import Mathlib

/-! Marker codec of the aruco fiducial markers (`nkdhny::HammingCode`,
`aruco::FiducidalMarkers`).

A shallow embedding of `src/hammingcode.cpp` and of the patch analysis and marker
rendering of `src/arucofidmarkers.h`, followed by theorems about them.

Conventions of the embedding

* A 5x5 `cv::Mat` of type `CV_8UC1` is a function `Fin 5 → Fin 5 → Nat`, row index first,
  exactly as `m.at<uchar>(row, col)`.
* C++ `int` values are unbounded integers; every quantity of the codec stays far below
  `2^31` (ids are below 1024, distances at most 25), and image sides are taken small
  enough for `swidth*swidth` not to overflow.
* Output parameters (`cv::Mat& out`, `int& nRotations`) are passed in and returned, so
  that "left unchanged" is expressible.
* A thrown `cv::Exception` is the value `none`.
-/

namespace nkdhny

/-- A 5x5 single-channel byte matrix; `g y x` is `g.at<uchar>(y, x)`. -/
abbrev Grid := Fin 5 → Fin 5 → Nat

/-- The matrix produced by `setTo(cv::Scalar(0))` and by `cv::Mat::zeros(5,5,CV_8UC1)`. -/
def zeroGrid : Grid := fun _ _ => 0

/-- The row indices visited by `for (int y=0;y<5;y++)`, in order. -/
def rows5 : List (Fin 5) := [0, 1, 2, 3, 4]

namespace HammingCode

/-- The table `int ids[4][5]` local to `HammingCode::distance`. -/
def ids : List (List Nat) :=
  [[1, 0, 0, 0, 0], [1, 0, 1, 1, 1], [0, 1, 0, 0, 1], [0, 1, 1, 1, 0]]

/-- The table `int ids[4]={0x10,0x17,0x09,0x0e}` local to `HammingCode::encode`. -/
def encodeIds : List Int := [0x10, 0x17, 0x09, 0x0e]

/-- `HammingCode::apply_rotation(in, out)`: after `in.copyTo(out)` every cell of `out` is
overwritten by `out.at(i,j) = in.at(in.cols-j-1, i)` with `in.cols = 5`; `in` and `out`
are distinct buffers at the only call site. The function always returns 0, which the
caller ignores, so only the written matrix is returned here. -/
def apply_rotation (inp : Grid) : Grid :=
  fun i j => inp ⟨5 - j.val - 1, by omega⟩ i

/-- The innermost loop of `distance` on the row `row = bits(y, ·)`:
`for (x=0;x<5;x++) sum += bits.at<uchar>(y,x) == ids[p][x] ? 0 : 1;`. -/
def rowSum (row : Fin 5 → Nat) (p : Nat) : Nat :=
  rows5.foldl (fun sum x => sum + (if row x = (ids.getD p []).getD x.val 0 then 0 else 1)) 0

/-- The loop over the 4 words for one row of `distance`, starting from `minSum=1e5`:
`if (minSum>sum) minSum=sum;`. -/
def rowMin (row : Fin 5 → Nat) : Nat :=
  [0, 1, 2, 3].foldl (fun minSum p => if minSum > rowSum row p then rowSum row p else minSum)
    100000

/-- `HammingCode::distance(bits)`: the sum over the rows of the per-row minimum. -/
def distance (bits : Grid) : Nat :=
  rows5.foldl (fun dist y => dist + rowMin (bits y)) 0

/-- The local variables of `HammingCode::rotate` that live across loop iterations. -/
structure RotateState where
  rotation : Grid
  bestRotation : Grid
  minimumDistance : Nat
  rotationsMade : Int

/-- One iteration of `for (int i=1;i<4;i++)` in `HammingCode::rotate`. -/
def rotateStep (s : RotateState) (i : Nat) : RotateState :=
  let prevRotation := s.rotation
  let rotation := apply_rotation prevRotation
  let dist := distance rotation
  if dist < s.minimumDistance then
    { rotation := rotation, bestRotation := rotation, minimumDistance := dist,
      rotationsMade := (i : Int) }
  else
    { s with rotation := rotation }

/-- The state of `HammingCode::rotate` when its loop exits. -/
def rotateLoop (inp : Grid) : RotateState :=
  [1, 2, 3].foldl rotateStep
    { rotation := inp, bestRotation := inp, minimumDistance := distance inp, rotationsMade := 0 }

/-- `HammingCode::rotate(in, out)`: the returned `int` and the final content of `out`
(written only on the success branch). -/
def rotate (inp : Grid) (out : Grid) : Int × Grid :=
  let s := rotateLoop inp
  if s.minimumDistance = 0 then (s.rotationsMade, s.bestRotation) else (-1, out)

/-- The packing loop of `decode`: per row, `matID<<=1; if (bits(y,1)) matID|=1;
matID<<=1; if (bits(y,3)) matID|=1;`. The value never exceeds 1023. -/
def packBits (bits : Grid) : Nat :=
  rows5.foldl (fun matID y =>
    let m1 := matID <<< 1
    let m2 := if bits y 1 ≠ 0 then m1 ||| 1 else m1
    let m3 := m2 <<< 1
    if bits y 3 ≠ 0 then m3 ||| 1 else m3) 0

/-- `HammingCode::decode(in)`: `bits` starts as a copy of `in`, `rotate(in, bits)` is
called with its return value dropped, then the bits are packed. -/
def decode (inp : Grid) : Int :=
  let bits := (rotate inp inp).2
  (packBits bits : Int)

/-- The cell `(y, x)` written by the double loop of `encode` for an accepted `id`. -/
def encodeCell (id : Int) (y x : Fin 5) : Nat :=
  let index := Int.land (id >>> (2 * (4 - y.val))) 0x0003
  let val := encodeIds.getD index.toNat 0
  if Int.land (val >>> (4 - x.val)) 0x0001 ≠ 0 then 1 else 0

/-- `HammingCode::encode(id, out)`: the returned `int` and the final content of `out`. -/
def encode (id : Int) (out : Grid) : Int × Grid :=
  if 0 ≤ id ∧ id < 1024 then (0, fun y x => encodeCell id y x) else (-1, out)

/-- `n` successive calls of `apply_rotation`. -/
def rotateNTimes : Nat → Grid → Grid
  | 0, g => g
  | n + 1, g => apply_rotation (rotateNTimes n g)

end HammingCode

end nkdhny

namespace aruco

open nkdhny

/-- A single-channel byte image (`cv::Mat` of type `CV_8UC1`); `pix y x` is
`m.at<uchar>(y, x)` and only its values at `y < rows`, `x < cols` are pixels. -/
structure Image where
  rows : Nat
  cols : Nat
  pix : Nat → Nat → Nat

/-- The rectangle `cv::Rect(x, y, width, height)`. -/
structure Rect where
  x : Nat
  y : Nat
  width : Nat
  height : Nat

/-- The sum `f 0 + ... + f (n-1)`, the shape of a counting loop. -/
def sumRange (f : Nat → Nat) : Nat → Nat
  | 0 => 0
  | n + 1 => sumRange f n + f n

/-- The view `m(r)` of a rectangle of `m`: the constructor throws unless the rectangle
lies inside the matrix. -/
def Image.roi (m : Image) (r : Rect) : Option Image :=
  if r.x + r.width ≤ m.cols ∧ r.y + r.height ≤ m.rows then
    some { rows := r.height, cols := r.width, pix := fun y x => m.pix (r.y + y) (r.x + x) }
  else none

/-- The result of `cv::countNonZero(m)`: the number of pixels different from 0. -/
def countNonZero (m : Image) : Nat :=
  sumRange (fun y => sumRange (fun x => if m.pix y x ≠ 0 then 1 else 0) m.cols) m.rows

/-- The effect on `m` of `m(r).setTo(cv::Scalar(v))`: the view shares the pixels of `m`. -/
def Image.setRoi (m : Image) (r : Rect) (v : Nat) : Image :=
  { m with pix := fun y x =>
      if r.y ≤ y ∧ y < r.y + r.height ∧ r.x ≤ x ∧ x < r.x + r.width then v else m.pix y x }

namespace FiducidalMarkers

/-- The square cell of side `swidth` at cell column `cx` and cell row `cy`:
`cv::Rect(cx*swidth, cy*swidth, swidth, swidth)`. -/
def cellRect (swidth cx cy : Nat) : Rect :=
  { x := cx * swidth, y := cy * swidth, width := swidth, height := swidth }

/-- `FiducidalMarkers<HammingCode>::createMarkerImage(id, size, addWaterMark)`. The text
drawing of OpenCV is the parameter `putText`, used only when `addWaterMark` holds. The
matrix `code` is uninitialised before `encode` fills it; it is read only after `encode`
succeeded. Each painted rectangle ends at `(x+2)*swidth ≤ 7*(size/7) ≤ size`, inside the
image, so the views never throw. -/
def createMarkerImage (putText : Image → Int → Image) (id : Int) (size : Nat)
    (addWaterMark : Bool) : Option Image :=
  let marker : Image := { rows := size, cols := size, pix := fun _ _ => 0 }
  let swidth := size / 7
  let r := HammingCode.encode id zeroGrid
  if r.1 = -1 then none
  else
    let code := r.2
    let painted := rows5.foldl (fun m y =>
      rows5.foldl (fun m x =>
        if code y x = 1 then m.setRoi (cellRect swidth (x.val + 1) (y.val + 1)) 255
        else m.setRoi (cellRect swidth (x.val + 1) (y.val + 1)) 0) m) marker
    some (if addWaterMark then putText painted id else painted)

/-- The values of `x` visited by `for (int x=0;x<7;x+=inc)`; `fuel` bounds the number
of iterations (7 suffice as `inc` is 1 or 6). -/
def borderXs (inc : Nat) : Nat → Nat → List Nat
  | 0, _ => []
  | fuel + 1, x => if x < 7 then x :: borderXs inc fuel (x + inc) else []

/-- The cells `(x, y)` visited by the border loop of `analyzeMarkerImage`, in order:
`inc=6; if (y==0 || y==6) inc=1;`. -/
def borderCells : List (Nat × Nat) :=
  (List.range 7).foldr (fun y acc =>
    (borderXs (if y = 0 ∨ y = 6 then 1 else 6) 7 0).map (fun x => (x, y)) ++ acc) []

/-- Specification-side count, stated without `countNonZero`: the number of positions
`(dy, dx)` inside the cell `(cx, cy)` of side `swidth` whose pixel is non-zero. -/
def nonZeroInCell (grey : Image) (swidth cx cy : Nat) : Nat :=
  ((Finset.range swidth ×ˢ Finset.range swidth).filter
    (fun p => grey.pix (cy * swidth + p.1) (cx * swidth + p.2) ≠ 0)).card

/-- `countNonZero(grey(cv::Rect(cx*swidth, cy*swidth, swidth, swidth)))`. -/
def cellCount (grey : Image) (swidth cx cy : Nat) : Option Nat :=
  (grey.roi (cellRect swidth cx cy)).map countNonZero

/-- The border loop of `analyzeMarkerImage` over the cells still to visit: `some true`
when it reaches `return -1`, `some false` when it runs to its end. -/
def borderLoop (grey : Image) (swidth : Nat) : List (Nat × Nat) → Option Bool
  | [] => some false
  | c :: rest =>
    match cellCount grey swidth c.1 c.2 with
    | none => none
    | some nZ => if nZ > (swidth * swidth) / 2 then some true else borderLoop grey swidth rest

/-- The sampling loop of `analyzeMarkerImage`: `_bits` starts as zeros and cell `(y,x)` is
set to 1 when `nZ > (swidth*swidth)/2` for the inner cell `(x+1, y+1)`. -/
def sampleBits (grey : Image) (swidth : Nat) : Option Grid :=
  if ∀ y x : Fin 5, (cellCount grey swidth (x.val + 1) (y.val + 1)).isSome then
    some (fun y x =>
      if (cellCount grey swidth (x.val + 1) (y.val + 1)).getD 0 > (swidth * swidth) / 2
      then 1 else 0)
  else none

/-- `FiducidalMarkers<HammingCode>::analyzeMarkerImage(grey, nRotations)`: the returned id
and the final value of `nRotations`. -/
def analyzeMarkerImage (grey : Image) (nRotations : Int) : Option (Int × Int) :=
  let swidth := grey.rows / 7
  match borderLoop grey swidth borderCells with
  | none => none
  | some true => some (-1, nRotations)
  | some false =>
    match sampleBits grey swidth with
    | none => none
    | some _bits =>
      let r := HammingCode.rotate _bits zeroGrid
      some (HammingCode.decode r.2, r.1)

end FiducidalMarkers

end aruco

namespace nkdhny

/-- Test fixture (bit error): the grid `g` with the 0/1 cell `(y, x)` inverted. -/
def flipBit (g : Grid) (y x : Fin 5) : Grid :=
  fun y1 x1 => if y1 = y ∧ x1 = x then 1 - g y1 x1 else g y1 x1

/-- Test fixture: the grid `g` with the two cells `(y, c1)` and `(y, c2)` of row `y`
inverted. -/
def flipTwo (g : Grid) (y c1 c2 : Fin 5) : Grid :=
  flipBit (flipBit g y c1) y c2

/-- Specification side: the Codeword Table, 4 words of 5 bits. -/
def codewordTable : Fin 4 → Fin 5 → Nat :=
  ![![1, 0, 0, 0, 0], ![1, 0, 1, 1, 1], ![0, 1, 0, 0, 1], ![0, 1, 1, 1, 0]]

/-- Specification side: the Hamming distance between a row and the codeword `p`, the
count of differing bit positions. -/
def hammingToWord (row : Fin 5 → Nat) (p : Fin 4) : Nat :=
  (Finset.univ.filter (fun x : Fin 5 => row x ≠ codewordTable p x)).card

/-- Specification side: the code distance in the words of the spec, the sum over the 5
rows of the minimum over the 4 codewords of the Hamming distance to the row. -/
def codeDistanceSpec (g : Grid) : Nat :=
  ∑ y : Fin 5, Finset.univ.inf' Finset.univ_nonempty (fun p : Fin 4 => hammingToWord (g y) p)

end nkdhny

open nkdhny nkdhny.HammingCode aruco aruco.FiducidalMarkers


/-! ## The codeword table and the rows of an encoded grid -/

/-- The encoding of `id` as a grid: the content of `out` after `encode id out`. -/
theorem encode_snd_of_valid (id : Int) (out : Grid) (h0 : 0 ≤ id) (h1 : id < 1024) :
    (encode id out).2 = fun y x => encodeCell id y x := by
  unfold encode
  rw [if_pos ⟨h0, h1⟩]

theorem encodeCell_natCast (n : Nat) (y x : Fin 5) :
    encodeCell (n : Int) y x = (ids.getD ((n >>> (2 * (4 - y.val))) &&& 3) []).getD x.val 0 := by
  have hidx : Int.land ((n : Int) >>> (2 * (4 - y.val))) 0x0003
      = (((n >>> (2 * (4 - y.val))) &&& 3 : Nat) : Int) := rfl
  unfold encodeCell
  simp only [hidx, Int.toNat_ofNat]
  have hlt : (n >>> (2 * (4 - y.val))) &&& 3 < 4 := Nat.lt_succ_of_le Nat.and_le_right
  generalize (n >>> (2 * (4 - y.val))) &&& 3 = d at hlt
  interval_cases d <;> fin_cases x <;> decide

theorem foldl_add_eq_zero_iff {α : Type} (f : α → Nat) (l : List α) (a : Nat) :
    l.foldl (fun s x => s + f x) a = 0 ↔ a = 0 ∧ ∀ x ∈ l, f x = 0 := by
  induction l generalizing a with
  | nil => simp
  | cons b t ih =>
    simp only [List.foldl, ih, List.mem_cons, forall_eq_or_imp]
    constructor
    · rintro ⟨h1, h2⟩
      exact ⟨by omega, by omega, h2⟩
    · rintro ⟨h1, h2, h3⟩
      exact ⟨by omega, h3⟩

theorem mem_rows5 (x : Fin 5) : x ∈ rows5 := by
  fin_cases x <;> simp [rows5]

theorem rowSum_eq_zero_iff (row : Fin 5 → Nat) (p : Nat) :
    rowSum row p = 0 ↔ ∀ x : Fin 5, row x = (ids.getD p []).getD x.val 0 := by
  unfold rowSum
  rw [foldl_add_eq_zero_iff (fun x => if row x = (ids.getD p []).getD x.val 0 then 0 else 1)]
  constructor
  · rintro ⟨_, h⟩ x
    have hx := h x (mem_rows5 x)
    by_contra hne
    rw [if_neg hne] at hx
    exact absurd hx (by decide)
  · intro h
    exact ⟨rfl, fun x _ => by simp [h x]⟩

theorem rowMin_eq_zero_iff (row : Fin 5 → Nat) :
    rowMin row = 0 ↔
      rowSum row 0 = 0 ∨ rowSum row 1 = 0 ∨ rowSum row 2 = 0 ∨ rowSum row 3 = 0 := by
  unfold rowMin
  simp only [List.foldl]
  generalize rowSum row 0 = s0
  generalize rowSum row 1 = s1
  generalize rowSum row 2 = s2
  generalize rowSum row 3 = s3
  split_ifs <;> constructor <;> intro h <;> first | omega | exact h.elim

theorem distance_eq_zero_iff (g : Grid) : distance g = 0 ↔ ∀ y : Fin 5, rowMin (g y) = 0 := by
  unfold distance
  rw [foldl_add_eq_zero_iff (fun y => rowMin (g y))]
  exact ⟨fun h y => h.2 y (mem_rows5 y), fun h => ⟨rfl, fun y _ => h y⟩⟩

theorem rowMin_eq_zero_iff_exists (row : Fin 5 → Nat) :
    rowMin row = 0 ↔ ∃ p : Fin 4, ∀ x : Fin 5, row x = (ids.getD p.val []).getD x.val 0 := by
  rw [rowMin_eq_zero_iff]
  simp only [rowSum_eq_zero_iff]
  constructor
  · rintro (h | h | h | h)
    · exact ⟨0, h⟩
    · exact ⟨1, h⟩
    · exact ⟨2, h⟩
    · exact ⟨3, h⟩
  · rintro ⟨p, h⟩
    fin_cases p
    · exact Or.inl h
    · exact Or.inr (Or.inl h)
    · exact Or.inr (Or.inr (Or.inl h))
    · exact Or.inr (Or.inr (Or.inr h))

/-! ## The rotation resolver -/

theorem rotateStep_mk (r b r1 : Grid) (m d : Nat) (k : Int) (i : Nat)
    (hr : apply_rotation r = r1) (hd : distance r1 = d) :
    rotateStep { rotation := r, bestRotation := b, minimumDistance := m, rotationsMade := k } i
      = if d < m then
          { rotation := r1, bestRotation := r1, minimumDistance := d, rotationsMade := (i : Int) }
        else
          { rotation := r1, bestRotation := b, minimumDistance := m, rotationsMade := k } := by
  subst hr hd
  rfl

/-- The three iterations and the final test of `rotate`, over named orientations
`g0 .. g3` and named distances `d0 .. d3`. -/
theorem rotate_core (out g0 g1 g2 g3 : Grid) (d0 d1 d2 d3 : Nat) (s1 s2 s3 : RotateState)
    (hg1 : apply_rotation g0 = g1) (hg2 : apply_rotation g1 = g2)
    (hg3 : apply_rotation g2 = g3)
    (hd1 : distance g1 = d1) (hd2 : distance g2 = d2) (hd3 : distance g3 = d3)
    (e1 : s1 = rotateStep
      { rotation := g0, bestRotation := g0, minimumDistance := d0, rotationsMade := 0 } 1)
    (e2 : s2 = rotateStep s1 2) (e3 : s3 = rotateStep s2 3) :
    (if s3.minimumDistance = 0 then (s3.rotationsMade, s3.bestRotation) else ((-1 : Int), out))
    = if d0 = 0 then (0, g0)
      else if d1 = 0 then (1, g1)
      else if d2 = 0 then (2, g2)
      else if d3 = 0 then (3, g3)
      else (-1, out) := by
  rw [rotateStep_mk g0 g0 g1 d0 d1 0 1 hg1 hd1] at e1
  split_ifs at e1 with h1 <;> subst e1 <;>
  rw [rotateStep_mk _ _ g2 _ d2 _ 2 hg2 hd2] at e2 <;>
  split_ifs at e2 with h2 <;> subst e2 <;>
  rw [rotateStep_mk _ _ g3 _ d3 _ 3 hg3 hd3] at e3 <;>
  split_ifs at e3 with h3 <;> subst e3 <;> simp only <;>
  split_ifs <;> first | rfl | omega

/-- The resolver in closed form: the first of the four orientations with code distance 0
wins, and `out` is untouched when there is none. -/
theorem rotate_eq (g out : Grid) :
    rotate g out =
      if distance g = 0 then (0, g)
      else if distance (rotateNTimes 1 g) = 0 then (1, rotateNTimes 1 g)
      else if distance (rotateNTimes 2 g) = 0 then (2, rotateNTimes 2 g)
      else if distance (rotateNTimes 3 g) = 0 then (3, rotateNTimes 3 g)
      else (-1, out) := by
  have r1 : rotateNTimes 1 g = apply_rotation g := rfl
  have r2 : rotateNTimes 2 g = apply_rotation (apply_rotation g) := rfl
  have r3 : rotateNTimes 3 g = apply_rotation (apply_rotation (apply_rotation g)) := rfl
  rw [r1, r2, r3]
  unfold rotate rotateLoop
  rw [List.foldl_cons, List.foldl_cons, List.foldl_cons, List.foldl_nil]
  generalize hg1 : apply_rotation g = g1
  generalize hg2 : apply_rotation g1 = g2
  generalize hg3 : apply_rotation g2 = g3
  generalize hd0 : distance g = d0
  generalize hd1 : distance g1 = d1
  generalize hd2 : distance g2 = d2
  generalize hd3 : distance g3 = d3
  exact rotate_core out g g1 g2 g3 d0 d1 d2 d3 _ _ _ hg1 hg2 hg3 hd1 hd2 hd3 rfl rfl rfl

/-! ## Encoded grids and their rotations -/

theorem rowMin_encode_row (n : Nat) (y : Fin 5) :
    rowMin (fun x => encodeCell (n : Int) y x) = 0 := by
  rw [rowMin_eq_zero_iff_exists]
  exact ⟨⟨(n >>> (2 * (4 - y.val))) &&& 3, Nat.lt_succ_of_le Nat.and_le_right⟩,
    fun x => encodeCell_natCast n y x⟩

theorem distance_encode (n : Nat) : distance (fun y x => encodeCell (n : Int) y x) = 0 := by
  rw [distance_eq_zero_iff]
  exact fun y => rowMin_encode_row n y

theorem apply_rotation_four (g : Grid) :
    apply_rotation (apply_rotation (apply_rotation (apply_rotation g))) = g := by
  funext i j
  unfold apply_rotation
  congr 1 <;> apply Fin.ext <;> simp <;> omega

/-- Columns 0 and 1 of every codeword are complementary. -/
theorem encodeCell_col0_col1 (n : Nat) (y : Fin 5) :
    encodeCell (n : Int) y 0 + encodeCell (n : Int) y 1 = 1 := by
  rw [encodeCell_natCast, encodeCell_natCast]
  have hlt : (n >>> (2 * (4 - y.val))) &&& 3 < 4 := Nat.lt_succ_of_le Nat.and_le_right
  generalize (n >>> (2 * (4 - y.val))) &&& 3 = d at hlt
  interval_cases d <;> decide

/-- No two codewords are complementary in every column. -/
theorem no_complementary_codewords :
    ∀ p q : Fin 4, ¬ ∀ j : Fin 5,
      (ids.getD p.val []).getD j.val 0 + (ids.getD q.val []).getD j.val 0 = 1 := by
  decide

/-- The only codeword whose mirror image is a codeword is the last one. -/
theorem mirrored_codeword :
    ∀ d p : Fin 4, (∀ j : Fin 5,
      (ids.getD d.val []).getD (4 - j.val) 0 = (ids.getD p.val []).getD j.val 0) → d = 3 := by
  decide

theorem distance_rot1_encode (n : Nat) :
    distance (rotateNTimes 1 (fun y x => encodeCell (n : Int) y x)) ≠ 0 := by
  intro h
  rw [distance_eq_zero_iff] at h
  obtain ⟨p, hp⟩ := (rowMin_eq_zero_iff_exists _).1 (h 0)
  obtain ⟨q, hq⟩ := (rowMin_eq_zero_iff_exists _).1 (h 1)
  apply no_complementary_codewords p q
  intro j
  rw [← hp j, ← hq j]
  show encodeCell (n : Int) ⟨5 - j.val - 1, by omega⟩ 0
     + encodeCell (n : Int) ⟨5 - j.val - 1, by omega⟩ 1 = 1
  exact encodeCell_col0_col1 n _

theorem distance_rot3_encode (n : Nat) :
    distance (rotateNTimes 3 (fun y x => encodeCell (n : Int) y x)) ≠ 0 := by
  intro h
  rw [distance_eq_zero_iff] at h
  obtain ⟨p, hp⟩ := (rowMin_eq_zero_iff_exists _).1 (h 4)
  obtain ⟨q, hq⟩ := (rowMin_eq_zero_iff_exists _).1 (h 3)
  apply no_complementary_codewords p q
  intro j
  rw [← hp j, ← hq j]
  show encodeCell (n : Int) ⟨5 - (5 - j.val - 1) - 1, by omega⟩ 0
     + encodeCell (n : Int) ⟨5 - (5 - j.val - 1) - 1, by omega⟩ 1 = 1
  exact encodeCell_col0_col1 n _

theorem rot2_encode_1023 :
    rotateNTimes 2 (fun y x => encodeCell (1023 : Int) y x)
      = fun y x => encodeCell (1023 : Int) y x := by
  have h : ∀ y x : Fin 5, rotateNTimes 2 (fun y x => encodeCell (1023 : Int) y x) y x
      = encodeCell (1023 : Int) y x := by decide!
  funext y x
  exact h y x

set_option maxRecDepth 100000 in
theorem digits_all_three_aux : ∀ n : Nat, n < 1024 →
    (∀ y : Fin 5, (n >>> (2 * (4 - y.val))) &&& 3 = 3) → n = 1023 := by
  decide!

theorem digits_all_three (n : Nat) (hn : n < 1024)
    (h : ∀ y : Fin 5, (n >>> (2 * (4 - y.val))) &&& 3 = 3) : n = 1023 :=
  digits_all_three_aux n hn h

theorem distance_rot2_encode (n : Nat) (hn : n < 1024) :
    distance (rotateNTimes 2 (fun y x => encodeCell (n : Int) y x)) = 0 ↔ n = 1023 := by
  constructor
  · intro h
    rw [distance_eq_zero_iff] at h
    apply digits_all_three n hn
    intro y
    obtain ⟨p, hp⟩ := (rowMin_eq_zero_iff_exists _).1 (h ⟨5 - y.val - 1, by omega⟩)
    have hlt : (n >>> (2 * (4 - y.val))) &&& 3 < 4 := Nat.lt_succ_of_le Nat.and_le_right
    have key := mirrored_codeword ⟨(n >>> (2 * (4 - y.val))) &&& 3, hlt⟩ p (by
      intro j
      rw [← hp j]
      have hy : (⟨5 - (⟨5 - y.val - 1, by omega⟩ : Fin 5).val - 1, by omega⟩ : Fin 5) = y := by
        apply Fin.ext
        show 5 - (5 - y.val - 1) - 1 = y.val
        omega
      show _ = encodeCell (n : Int)
        ⟨5 - (⟨5 - y.val - 1, by omega⟩ : Fin 5).val - 1, by omega⟩ ⟨5 - j.val - 1, by omega⟩
      rw [hy, encodeCell_natCast]
      show _ = (ids.getD ((n >>> (2 * (4 - y.val))) &&& 3) []).getD (5 - j.val - 1) 0
      have : 5 - j.val - 1 = 4 - j.val := by omega
      rw [this])
    exact congrArg Fin.val key
  · intro h
    subst h
    have := rot2_encode_1023
    have h2 := distance_encode 1023
    rw [show ((1023 : Nat) : Int) = (1023 : Int) from rfl] at h2 ⊢
    rw [this]
    exact h2

theorem rotateNTimes_four (g : Grid) : rotateNTimes 4 g = g :=
  apply_rotation_four g

/-- The resolver on a quarter-turned canonical grid: a grid `g` of distance 0 whose odd
quarter turns have positive distance is recovered from each of its four orientations. -/
theorem rotate_of_canonical (g out : Grid) (r : Nat) (hr : r ≤ 3)
    (h0 : distance g = 0) (h1 : distance (rotateNTimes 1 g) ≠ 0)
    (h3 : distance (rotateNTimes 3 g) ≠ 0)
    (h2 : distance (rotateNTimes 2 g) = 0 → rotateNTimes 2 g = g) :
    rotate (rotateNTimes r g) out
      = ((if distance (rotateNTimes 2 g) = 0 then ((r % 2 : Nat) : Int)
          else (((4 - r) % 4 : Nat) : Int)), g) := by
  have e11 : rotateNTimes 1 (rotateNTimes 1 g) = rotateNTimes 2 g := rfl
  have e21 : rotateNTimes 2 (rotateNTimes 1 g) = rotateNTimes 3 g := rfl
  have e31 : rotateNTimes 3 (rotateNTimes 1 g) = rotateNTimes 4 g := rfl
  have e12 : rotateNTimes 1 (rotateNTimes 2 g) = rotateNTimes 3 g := rfl
  have e22 : rotateNTimes 2 (rotateNTimes 2 g) = rotateNTimes 4 g := rfl
  have e13 : rotateNTimes 1 (rotateNTimes 3 g) = rotateNTimes 4 g := rfl
  have e00 : rotateNTimes 0 g = g := rfl
  have e4 := rotateNTimes_four g
  rw [rotate_eq]
  interval_cases r
  · rw [e00, if_pos h0]
    split_ifs <;> rfl
  · rw [if_neg h1, e11, e21, e31, e4]
    by_cases c : distance (rotateNTimes 2 g) = 0
    · rw [if_pos c, if_pos c, h2 c]
      rfl
    · rw [if_neg c, if_neg c, if_neg h3, if_pos h0]
      rfl
  · rw [e12, e22, e4]
    by_cases c : distance (rotateNTimes 2 g) = 0
    · rw [if_pos c, if_pos c, h2 c]
      rfl
    · rw [if_neg c, if_neg c, if_neg h3, if_pos h0]
      rfl
  · rw [if_neg h3, e13, e4, if_pos h0]
    split_ifs <;> rfl

/-- An accepted id is a natural number below 1024, and `encode` writes its grid. -/
theorem encode_of_valid (id : Int) (out : Grid) (h0 : 0 ≤ id) (h1 : id ≤ 1023) :
    ∃ n : Nat, n < 1024 ∧ id = (n : Int) ∧
      encode id out = (0, fun y x => encodeCell (n : Int) y x) := by
  refine ⟨id.toNat, by omega, by omega, ?_⟩
  have hid : ((id.toNat : Nat) : Int) = id := Int.toNat_of_nonneg h0
  rw [hid]
  unfold encode
  rw [if_pos ⟨h0, by omega⟩]

theorem rotate_rotated_encode (n : Nat) (hn : n < 1024) (r : Nat) (hr : r ≤ 3) (out : Grid) :
    rotate (rotateNTimes r (fun y x => encodeCell (n : Int) y x)) out
      = ((if n = 1023 then ((r % 2 : Nat) : Int) else (((4 - r) % 4 : Nat) : Int)),
          fun y x => encodeCell (n : Int) y x) := by
  have h2 := distance_rot2_encode n hn
  rw [rotate_of_canonical _ out r hr (distance_encode n) (distance_rot1_encode n)
    (distance_rot3_encode n) (fun c => by
      have := h2.1 c
      subst this
      exact rot2_encode_1023)]
  by_cases c : n = 1023
  · rw [if_pos (h2.2 c), if_pos c]
  · rw [if_neg (fun h => c (h2.1 h)), if_neg c]

set_option maxRecDepth 100000 in
theorem packBits_encode_aux :
    ∀ n : Nat, n < 1024 → packBits (fun y x => encodeCell (n : Int) y x) = n := by
  decide!

theorem decode_rotated_encode (n : Nat) (hn : n < 1024) (r : Nat) (hr : r ≤ 3) :
    decode (rotateNTimes r (fun y x => encodeCell (n : Int) y x)) = (n : Int) := by
  unfold decode
  rw [rotate_rotated_encode n hn r hr]
  exact congrArg Nat.cast (packBits_encode_aux n hn)

/-! ## Contract of the codec and of the resolver -/

/-- Claim C1 (round trip): for every id with `0 ≤ id ≤ 1023`, `encode` succeeds
(returns 0) and `decode` applied to the grid it wrote returns exactly `id`. -/
theorem decode_encode_roundtrip (id : Int) (out : Grid) (h0 : 0 ≤ id) (h1 : id ≤ 1023) :
    (encode id out).1 = 0 ∧ decode (encode id out).2 = id := by
  obtain ⟨n, hn, hid, he⟩ := encode_of_valid id out h0 h1
  rw [he, hid]
  exact ⟨rfl, decode_rotated_encode n hn 0 (Nat.zero_le 3)⟩

theorem decode_encode_roundtrip_witness :
    ((0 : Int) ≤ 110 ∧ (110 : Int) ≤ 1023) ∧
      ((encode 110 zeroGrid).1 = 0 ∧ decode (encode 110 zeroGrid).2 = 110) :=
  ⟨⟨by decide, by decide⟩, decode_encode_roundtrip 110 zeroGrid (by decide) (by decide)⟩

/-- Claim C2 (decoding is rotation-proof on valid markers): for every id in `[0,1023]`
and every `r` in `{0,1,2,3}`, `decode` applied to `encode(id)` rotated `r` times by
`apply_rotation` returns `id`. -/
theorem decode_rotated_roundtrip (id : Int) (out : Grid) (r : Nat)
    (h0 : 0 ≤ id) (h1 : id ≤ 1023) (hr : r ≤ 3) :
    decode (rotateNTimes r (encode id out).2) = id := by
  obtain ⟨n, hn, hid, he⟩ := encode_of_valid id out h0 h1
  rw [he, hid]
  exact decode_rotated_encode n hn r hr

theorem decode_rotated_roundtrip_witness :
    ((0 : Int) ≤ 110 ∧ (110 : Int) ≤ 1023 ∧ 3 ≤ 3) ∧
      decode (rotateNTimes 3 (encode 110 zeroGrid).2) = 110 :=
  ⟨⟨by decide, by decide, by decide⟩,
    decode_rotated_roundtrip 110 zeroGrid 3 (by decide) (by decide) (by decide)⟩

/-- Counterexample to claim C3 as stated: `encode(0)` turned once is brought back by the
resolver with rotation count 3, not 1. -/
theorem rotate_count_counterexample :
    rotate (rotateNTimes 1 (encode 0 zeroGrid).2) zeroGrid = (3, (encode 0 zeroGrid).2) ∧
      (rotate (rotateNTimes 1 (encode 0 zeroGrid).2) zeroGrid).1 ≠ ((1 : Nat) : Int) := by
  obtain ⟨n, hn, hid, he⟩ := encode_of_valid 0 zeroGrid (by decide) (by decide)
  have hn0 : n = 0 := by omega
  subst hn0
  rw [he, rotate_rotated_encode 0 hn 1 (by decide) zeroGrid]
  exact ⟨rfl, by decide⟩

/-- Claim C3, amended: for every id in `[0,1023]` and every `r` in `{0,1,2,3}`, `rotate`
applied to `encode(id)` rotated `r` times succeeds, writes the grid `encode(id)` to `out`,
and returns the number of further quarter turns that restore it: `(4 - r) mod 4`, except
for id 1023, whose grid is its own half turn, where it returns `r mod 2`. -/
theorem rotate_rotated_count (id : Int) (out out2 : Grid) (r : Nat)
    (h0 : 0 ≤ id) (h1 : id ≤ 1023) (hr : r ≤ 3) :
    rotate (rotateNTimes r (encode id out).2) out2
        = ((if id = 1023 then ((r % 2 : Nat) : Int) else (((4 - r) % 4 : Nat) : Int)),
            (encode id out).2) ∧
      (rotate (rotateNTimes r (encode id out).2) out2).1 ≠ -1 := by
  obtain ⟨n, hn, hid, he⟩ := encode_of_valid id out h0 h1
  have hiff : id = 1023 ↔ n = 1023 := by omega
  rw [he, rotate_rotated_encode n hn r hr out2]
  refine ⟨?_, ?_⟩
  · by_cases c : n = 1023
    · rw [if_pos c, if_pos (hiff.2 c)]
    · rw [if_neg c, if_neg (fun h => c (hiff.1 h))]
  · show (if n = 1023 then ((r % 2 : Nat) : Int) else (((4 - r) % 4 : Nat) : Int)) ≠ -1
    split_ifs <;> omega

theorem rotate_rotated_count_witness :
    ((0 : Int) ≤ 110 ∧ (110 : Int) ≤ 1023 ∧ 1 ≤ 3) ∧
      (rotate (rotateNTimes 1 (encode 110 zeroGrid).2) zeroGrid
        = ((if (110 : Int) = 1023 then ((1 % 2 : Nat) : Int) else (((4 - 1) % 4 : Nat) : Int)),
            (encode 110 zeroGrid).2) ∧
      (rotate (rotateNTimes 1 (encode 110 zeroGrid).2) zeroGrid).1 ≠ -1) :=
  ⟨⟨by decide, by decide, by decide⟩,
    rotate_rotated_count 110 zeroGrid zeroGrid 1 (by decide) (by decide) (by decide)⟩

/-- Claim C4: `encode(id, out)` returns -1 if and only if `id < 0` or `id ≥ 1024` (in
particular for -1 and for 1024) and returns 0 otherwise; when it returns -1 the grid
`out` is left unchanged. -/
theorem encode_rejects_iff (id : Int) (out : Grid) :
    ((encode id out).1 = -1 ↔ (id < 0 ∨ id ≥ 1024)) ∧
    (¬ (id < 0 ∨ id ≥ 1024) → (encode id out).1 = 0) ∧
    ((encode id out).1 = -1 → (encode id out).2 = out) ∧
    (encode (-1) out).1 = -1 ∧ (encode 1024 out).1 = -1 := by
  unfold encode
  refine ⟨?_, ?_, ?_, ?_, ?_⟩
  · by_cases c : 0 ≤ id ∧ id < 1024
    · rw [if_pos c]
      constructor
      · intro h
        exact absurd (show (0 : Int) = -1 from h) (by decide)
      · intro h
        omega
    · rw [if_neg c]
      constructor
      · intro _
        omega
      · intro _
        rfl
  · intro h
    rw [if_pos (by omega)]
  · by_cases c : 0 ≤ id ∧ id < 1024
    · rw [if_pos c]
      intro h
      exact absurd (show (0 : Int) = -1 from h) (by decide)
    · rw [if_neg c]
      intro _
      rfl
  · rw [if_neg (by decide)]
  · rw [if_neg (by decide)]

theorem encode_index_natCast (n k : Nat) :
    (Int.land ((n : Int) >>> k) 3).toNat = (n >>> k) &&& 3 := rfl

/-- Claim C5: for every id in `[0,1023]` and every row `y`, row `y` of `encode(id)` is the
codeword with index `(id >> (2*(4-y))) & 3` of the table
`1 0 0 0 0, 1 0 1 1 1, 0 1 0 0 1, 0 1 1 1 0`; in particular `encode(110)` has the rows
`[1,0,0,0,0], [1,0,1,1,1], [0,1,0,0,1], [0,1,1,1,0], [0,1,0,0,1]`. -/
theorem encode_rows (id : Int) (out : Grid) (y : Fin 5) (h0 : 0 ≤ id) (h1 : id ≤ 1023) :
    rows5.map (fun x => (encode id out).2 y x)
        = ([[1, 0, 0, 0, 0], [1, 0, 1, 1, 1], [0, 1, 0, 0, 1], [0, 1, 1, 1, 0]] :
            List (List Nat)).getD (Int.land (id >>> (2 * (4 - y.val))) 3).toNat [] ∧
      rows5.map (fun y => rows5.map (fun x => (encode 110 out).2 y x))
        = [[1, 0, 0, 0, 0], [1, 0, 1, 1, 1], [0, 1, 0, 0, 1], [0, 1, 1, 1, 0],
            [0, 1, 0, 0, 1]] := by
  obtain ⟨n, hn, hid, he⟩ := encode_of_valid id out h0 h1
  obtain ⟨m, hm, hmid, hme⟩ := encode_of_valid 110 out (by decide) (by decide)
  have hm110 : m = 110 := by omega
  subst hm110
  rw [he, hme, hid, encode_index_natCast]
  constructor
  · show [encodeCell (n : Int) y 0, encodeCell (n : Int) y 1, encodeCell (n : Int) y 2,
        encodeCell (n : Int) y 3, encodeCell (n : Int) y 4] = _
    rw [encodeCell_natCast, encodeCell_natCast, encodeCell_natCast, encodeCell_natCast,
      encodeCell_natCast]
    have hlt : (n >>> (2 * (4 - y.val))) &&& 3 < 4 := Nat.lt_succ_of_le Nat.and_le_right
    generalize (n >>> (2 * (4 - y.val))) &&& 3 = d at hlt
    interval_cases d <;> rfl
  · decide

theorem encode_rows_witness :
    ((0 : Int) ≤ 110 ∧ (110 : Int) ≤ 1023) ∧
      (rows5.map (fun x => (encode 110 zeroGrid).2 2 x)
        = ([[1, 0, 0, 0, 0], [1, 0, 1, 1, 1], [0, 1, 0, 0, 1], [0, 1, 1, 1, 0]] :
            List (List Nat)).getD (Int.land ((110 : Int) >>> (2 * (4 - (2 : Fin 5).val))) 3).toNat [] ∧
      rows5.map (fun y => rows5.map (fun x => (encode 110 zeroGrid).2 y x))
        = [[1, 0, 0, 0, 0], [1, 0, 1, 1, 1], [0, 1, 0, 0, 1], [0, 1, 1, 1, 0],
            [0, 1, 0, 0, 1]]) :=
  ⟨⟨by decide, by decide⟩, encode_rows 110 zeroGrid 2 (by decide) (by decide)⟩

/-- Claim C6: for every 5x5 grid `g`, `rotate(g, out)` returns -1 if and only if none of
the four grids `g, rot g, rot^2 g, rot^3 g` has code distance 0; otherwise it returns the
smallest `i` in `{0,1,2,3}` such that `rot^i g` has code distance 0. -/
theorem rotate_returns_first_zero (g out : Grid) :
    ((rotate g out).1 = -1 ↔ ∀ i : Fin 4, distance (rotateNTimes i.val g) ≠ 0) ∧
    (∀ i : Fin 4, distance (rotateNTimes i.val g) = 0 →
      (∀ j : Fin 4, j < i → distance (rotateNTimes j.val g) ≠ 0) →
      (rotate g out).1 = (i.val : Int)) := by
  have e0 : rotateNTimes 0 g = g := rfl
  rw [rotate_eq]
  constructor
  · constructor
    · intro h i
      by_cases c0 : distance g = 0
      · rw [if_pos c0] at h
        exact absurd (show (0 : Int) = -1 from h) (by decide)
      by_cases c1 : distance (rotateNTimes 1 g) = 0
      · rw [if_neg c0, if_pos c1] at h
        exact absurd (show (1 : Int) = -1 from h) (by decide)
      by_cases c2 : distance (rotateNTimes 2 g) = 0
      · rw [if_neg c0, if_neg c1, if_pos c2] at h
        exact absurd (show (2 : Int) = -1 from h) (by decide)
      by_cases c3 : distance (rotateNTimes 3 g) = 0
      · rw [if_neg c0, if_neg c1, if_neg c2, if_pos c3] at h
        exact absurd (show (3 : Int) = -1 from h) (by decide)
      fin_cases i
      · exact c0
      · exact c1
      · exact c2
      · exact c3
    · intro h
      have c0 : distance g ≠ 0 := h 0
      have c1 : distance (rotateNTimes 1 g) ≠ 0 := h 1
      have c2 : distance (rotateNTimes 2 g) ≠ 0 := h 2
      have c3 : distance (rotateNTimes 3 g) ≠ 0 := h 3
      rw [if_neg c0, if_neg c1, if_neg c2, if_neg c3]
  · intro i hi hj
    fin_cases i
    · have c0 : distance g = 0 := hi
      rw [if_pos c0]
      rfl
    · have c0 : distance g ≠ 0 := hj 0 (by decide)
      have c1 : distance (rotateNTimes 1 g) = 0 := hi
      rw [if_neg c0, if_pos c1]
      rfl
    · have c0 : distance g ≠ 0 := hj 0 (by decide)
      have c1 : distance (rotateNTimes 1 g) ≠ 0 := hj 1 (by decide)
      have c2 : distance (rotateNTimes 2 g) = 0 := hi
      rw [if_neg c0, if_neg c1, if_pos c2]
      rfl
    · have c0 : distance g ≠ 0 := hj 0 (by decide)
      have c1 : distance (rotateNTimes 1 g) ≠ 0 := hj 1 (by decide)
      have c2 : distance (rotateNTimes 2 g) ≠ 0 := hj 2 (by decide)
      have c3 : distance (rotateNTimes 3 g) = 0 := hi
      rw [if_neg c0, if_neg c1, if_neg c2, if_pos c3]
      rfl

/-! ## Counting pixels in the cells of a patch -/

theorem sumRange_eq_sum (f : Nat → Nat) (n : Nat) :
    sumRange f n = ∑ i ∈ Finset.range n, f i := by
  induction n with
  | zero => rfl
  | succ k ih => rw [Finset.sum_range_succ, ← ih]; rfl

theorem countNonZero_cell (grey : Image) (s cx cy : Nat) :
    countNonZero ⟨s, s, fun y x => grey.pix (cy * s + y) (cx * s + x)⟩
      = nonZeroInCell grey s cx cy := by
  unfold countNonZero nonZeroInCell
  rw [Finset.card_filter, Finset.sum_product, sumRange_eq_sum]
  apply Finset.sum_congr rfl
  intro y _
  rw [sumRange_eq_sum]

theorem cellCount_inside (grey : Image) (s cx cy : Nat)
    (hc : 7 * s ≤ grey.cols) (hr : 7 * s ≤ grey.rows) (hx : cx < 7) (hy : cy < 7) :
    cellCount grey s cx cy = some (nonZeroInCell grey s cx cy) := by
  have h1 : cx * s + s ≤ 7 * s := by
    have := Nat.mul_le_mul_right s (show cx + 1 ≤ 7 by omega)
    rw [Nat.add_mul, Nat.one_mul] at this
    exact this
  have h2 : cy * s + s ≤ 7 * s := by
    have := Nat.mul_le_mul_right s (show cy + 1 ≤ 7 by omega)
    rw [Nat.add_mul, Nat.one_mul] at this
    exact this
  unfold cellCount Image.roi cellRect
  dsimp only
  rw [if_pos ⟨by omega, by omega⟩]
  exact congrArg some (countNonZero_cell grey s cx cy)

theorem borderLoop_inside (grey : Image) (s : Nat)
    (hc : 7 * s ≤ grey.cols) (hr : 7 * s ≤ grey.rows) (l : List (Nat × Nat))
    (hl : ∀ c ∈ l, c.1 < 7 ∧ c.2 < 7) :
    borderLoop grey s l
      = some (l.any (fun c => decide (nonZeroInCell grey s c.1 c.2 > (s * s) / 2))) := by
  induction l with
  | nil => rfl
  | cons c t ih =>
    have hcm := hl c (List.mem_cons_self c t)
    have iht := ih (fun d hd => hl d (List.mem_cons_of_mem c hd))
    unfold borderLoop
    rw [cellCount_inside grey s c.1 c.2 hc hr hcm.1 hcm.2]
    by_cases hz : nonZeroInCell grey s c.1 c.2 > (s * s) / 2
    · simp only [hz, if_true, List.any_cons, decide_True, Bool.true_or]
    · simp only [hz, if_false, List.any_cons, decide_False, Bool.false_or]
      exact iht

theorem borderCells_bound : ∀ c ∈ borderCells, c.1 < 7 ∧ c.2 < 7 := by
  decide

theorem mem_borderCells_aux : ∀ cx : Nat, cx < 7 → ∀ cy : Nat, cy < 7 →
    ((cx, cy) ∈ borderCells ↔ (cx = 0 ∨ cx = 6 ∨ cy = 0 ∨ cy = 6)) := by
  decide

/-- The border loop visits exactly the 24 cells of the outer ring of the 7x7 cell grid. -/
theorem mem_borderCells (cx cy : Nat) :
    (cx, cy) ∈ borderCells ↔ cx < 7 ∧ cy < 7 ∧ (cx = 0 ∨ cx = 6 ∨ cy = 0 ∨ cy = 6) := by
  constructor
  · intro h
    have hb := borderCells_bound (cx, cy) h
    exact ⟨hb.1, hb.2, (mem_borderCells_aux cx hb.1 cy hb.2).1 h⟩
  · rintro ⟨h1, h2, h3⟩
    exact (mem_borderCells_aux cx h1 cy h2).2 h3

theorem half_gt_iff_rat (a b : Nat) : a > b / 2 ↔ (a : ℚ) > (b : ℚ) / 2 := by
  rw [gt_iff_lt, gt_iff_lt, div_lt_iff₀ (by norm_num : (0 : ℚ) < 2)]
  constructor
  · intro h
    have h2 : b < a * 2 := by omega
    exact_mod_cast h2
  · intro h
    have h2 : b < a * 2 := by exact_mod_cast h
    omega

/-! ## The patch analyzer -/

theorem sampleBits_inside (grey : Image) (s : Nat)
    (hc : 7 * s ≤ grey.cols) (hr : 7 * s ≤ grey.rows) :
    sampleBits grey s = some (fun y x =>
      if nonZeroInCell grey s (x.val + 1) (y.val + 1) > (s * s) / 2 then 1 else 0) := by
  have hcell : ∀ y x : Fin 5, cellCount grey s (x.val + 1) (y.val + 1)
      = some (nonZeroInCell grey s (x.val + 1) (y.val + 1)) :=
    fun y x => cellCount_inside grey s _ _ hc hr (by omega) (by omega)
  unfold sampleBits
  rw [if_pos (fun y x => by rw [hcell y x]; rfl)]
  congr 1
  funext y x
  rw [hcell y x]
  rfl

/-- The patch analyzer on a patch that contains its 7x7 cells: one test on the outer
ring, then resolver and decoder on the sampled grid. -/
theorem analyzeMarkerImage_inside (grey : Image) (nRotations : Int)
    (hc : 7 * (grey.rows / 7) ≤ grey.cols) :
    analyzeMarkerImage grey nRotations =
      if borderCells.any (fun c =>
          decide (nonZeroInCell grey (grey.rows / 7) c.1 c.2 > (grey.rows / 7 * (grey.rows / 7)) / 2))
      then some (-1, nRotations)
      else some
        (decode (rotate (fun y x =>
            if nonZeroInCell grey (grey.rows / 7) (x.val + 1) (y.val + 1)
                > (grey.rows / 7 * (grey.rows / 7)) / 2 then 1 else 0) zeroGrid).2,
         (rotate (fun y x =>
            if nonZeroInCell grey (grey.rows / 7) (x.val + 1) (y.val + 1)
                > (grey.rows / 7 * (grey.rows / 7)) / 2 then 1 else 0) zeroGrid).1) := by
  have hr : 7 * (grey.rows / 7) ≤ grey.rows := Nat.mul_div_le grey.rows 7
  unfold analyzeMarkerImage
  dsimp only
  rw [borderLoop_inside grey _ hc hr borderCells borderCells_bound,
    sampleBits_inside grey _ hc hr]
  cases borderCells.any (fun c =>
      decide (nonZeroInCell grey (grey.rows / 7) c.1 c.2 > (grey.rows / 7 * (grey.rows / 7)) / 2))
  · rfl
  · rfl

theorem decode_nonneg (g : Grid) : 0 ≤ decode g :=
  Int.ofNat_nonneg _

theorem decode_ne_neg_one (g : Grid) : decode g ≠ -1 := by
  have := decode_nonneg g
  omega

theorem distance_zeroGrid : distance zeroGrid = 5 := by
  decide!

/-- When no orientation has distance 0 the resolver reports -1 and leaves `out` alone. -/
theorem rotate_fails (g out : Grid) (h : ∀ i : Fin 4, distance (rotateNTimes i.val g) ≠ 0) :
    rotate g out = (-1, out) := by
  have c0 : distance g ≠ 0 := h 0
  have c1 : distance (rotateNTimes 1 g) ≠ 0 := h 1
  have c2 : distance (rotateNTimes 2 g) ≠ 0 := h 2
  have c3 : distance (rotateNTimes 3 g) ≠ 0 := h 3
  rw [rotate_eq, if_neg c0, if_neg c1, if_neg c2, if_neg c3]

theorem rotateNTimes_zeroGrid (i : Nat) : rotateNTimes i zeroGrid = zeroGrid := by
  induction i with
  | zero => rfl
  | succ k ih =>
    show apply_rotation (rotateNTimes k zeroGrid) = zeroGrid
    rw [ih]
    rfl

theorem decode_zeroGrid : decode zeroGrid = 0 := by
  unfold decode
  rw [rotate_fails zeroGrid zeroGrid (fun i => by
    rw [rotateNTimes_zeroGrid, distance_zeroGrid]
    decide)]
  rfl

theorem nonZeroInCell_eq_zero (grey : Image) (s cx cy : Nat)
    (h : ∀ dy dx : Nat, dy < s → dx < s → grey.pix (cy * s + dy) (cx * s + dx) = 0) :
    nonZeroInCell grey s cx cy = 0 := by
  unfold nonZeroInCell
  rw [Finset.card_eq_zero, Finset.filter_eq_empty_iff]
  intro p hp
  rw [Finset.mem_product, Finset.mem_range, Finset.mem_range] at hp
  exact not_not.2 (h p.1 p.2 hp.1 hp.2)

theorem nonZeroInCell_eq_full (grey : Image) (s cx cy : Nat)
    (h : ∀ dy dx : Nat, dy < s → dx < s → grey.pix (cy * s + dy) (cx * s + dx) ≠ 0) :
    nonZeroInCell grey s cx cy = s * s := by
  unfold nonZeroInCell
  rw [Finset.filter_true_of_mem, Finset.card_product, Finset.card_range]
  intro p hp
  rw [Finset.mem_product, Finset.mem_range, Finset.mem_range] at hp
  exact h p.1 p.2 hp.1 hp.2

theorem full_cell_gt_half (s : Nat) (hs : 1 ≤ s) : s * s > (s * s) / 2 := by
  have : 1 ≤ s * s := Nat.mul_le_mul hs hs
  omega

/-- Claim C7, as the code behaves: an entirely background square patch of any side passes
the border check, the resolver fails on its all-zero sample, and the analyzer still
returns the id 0 (with `nRotations = -1`) instead of -1. -/
theorem analyze_background_returns_zero (n : Nat) (nRotations : Int) :
    analyzeMarkerImage { rows := n, cols := n, pix := fun _ _ => 0 } nRotations
      = some (0, -1) := by
  have hz : ∀ cx cy : Nat,
      nonZeroInCell { rows := n, cols := n, pix := fun _ _ => 0 } (n / 7) cx cy = 0 :=
    fun cx cy => nonZeroInCell_eq_zero _ _ _ _ (fun _ _ _ _ => rfl)
  rw [analyzeMarkerImage_inside _ _ (Nat.mul_div_le n 7)]
  dsimp only
  have hany : borderCells.any (fun c =>
      decide (nonZeroInCell { rows := n, cols := n, pix := fun _ _ => 0 } (n / 7) c.1 c.2
        > (n / 7 * (n / 7)) / 2)) = false := by
    rw [List.any_eq_false]
    intro c _
    rw [hz]
    simp
  have hbits : (fun (y x : Fin 5) =>
      if nonZeroInCell { rows := n, cols := n, pix := fun _ _ => 0 } (n / 7)
          (x.val + 1) (y.val + 1) > (n / 7 * (n / 7)) / 2 then 1 else 0) = zeroGrid := by
    funext y x
    rw [hz, if_neg (Nat.not_lt_zero _)]
    rfl
  rw [hany, hbits, rotate_fails zeroGrid zeroGrid (fun i => by
    rw [rotateNTimes_zeroGrid, distance_zeroGrid]
    decide)]
  simp only [Bool.false_eq_true, if_false, decode_zeroGrid]

/-- Claim C9 (the border check is exhaustive and exact): for every square patch with cell
side `s = rows/7`, `analyzeMarkerImage` returns, and it returns -1 (leaving `nRotations`
untouched) if and only if at least one of the 24 outer-ring cells (cell row or cell column
0 or 6) has strictly more than half of its `s*s` pixels non-zero, the comparison being the
exact rational one `nZ > s*s/2`. -/
theorem border_check_exact (grey : Image) (nRotations : Int) (hsq : grey.cols = grey.rows) :
    ∃ res : Int × Int, analyzeMarkerImage grey nRotations = some res ∧
      (res.1 = -1 ↔ ∃ cx cy : Nat, cx < 7 ∧ cy < 7 ∧ (cx = 0 ∨ cx = 6 ∨ cy = 0 ∨ cy = 6) ∧
        (nonZeroInCell grey (grey.rows / 7) cx cy : ℚ)
          > ((grey.rows / 7 * (grey.rows / 7) : Nat) : ℚ) / 2) ∧
      (res.1 = -1 → res.2 = nRotations) := by
  have hc : 7 * (grey.rows / 7) ≤ grey.cols := by
    rw [hsq]
    exact Nat.mul_div_le grey.rows 7
  rw [analyzeMarkerImage_inside grey nRotations hc]
  by_cases hany : borderCells.any (fun c =>
      decide (nonZeroInCell grey (grey.rows / 7) c.1 c.2
        > (grey.rows / 7 * (grey.rows / 7)) / 2)) = true
  · rw [if_pos hany]
    refine ⟨(-1, nRotations), rfl, ⟨fun _ => ?_, fun _ => rfl⟩, fun _ => rfl⟩
    rw [List.any_eq_true] at hany
    obtain ⟨c, hmem, hgt⟩ := hany
    have hm := (mem_borderCells c.1 c.2).1 hmem
    exact ⟨c.1, c.2, hm.1, hm.2.1, hm.2.2,
      (half_gt_iff_rat _ _).1 (of_decide_eq_true hgt)⟩
  · rw [if_neg hany]
    refine ⟨_, rfl, ⟨fun h => absurd h (decode_ne_neg_one _), ?_⟩,
      fun h => absurd h (decode_ne_neg_one _)⟩
    rintro ⟨cx, cy, hx, hy, hring, hgt⟩
    exfalso
    apply hany
    rw [List.any_eq_true]
    exact ⟨(cx, cy), (mem_borderCells cx cy).2 ⟨hx, hy, hring⟩,
      decide_eq_true ((half_gt_iff_rat _ _).2 hgt)⟩

theorem border_check_exact_witness :
    ({ rows := 7, cols := 7, pix := fun _ _ => 0 } : Image).cols
        = ({ rows := 7, cols := 7, pix := fun _ _ => 0 } : Image).rows ∧
    ∃ res : Int × Int,
      analyzeMarkerImage { rows := 7, cols := 7, pix := fun _ _ => 0 } 0 = some res ∧
      (res.1 = -1 ↔ ∃ cx cy : Nat, cx < 7 ∧ cy < 7 ∧ (cx = 0 ∨ cx = 6 ∨ cy = 0 ∨ cy = 6) ∧
        (nonZeroInCell { rows := 7, cols := 7, pix := fun _ _ => 0 }
            (({ rows := 7, cols := 7, pix := fun _ _ => 0 } : Image).rows / 7) cx cy : ℚ)
          > ((({ rows := 7, cols := 7, pix := fun _ _ => 0 } : Image).rows / 7
              * (({ rows := 7, cols := 7, pix := fun _ _ => 0 } : Image).rows / 7) : Nat) : ℚ)
            / 2) ∧
      (res.1 = -1 → res.2 = 0) :=
  ⟨rfl, border_check_exact { rows := 7, cols := 7, pix := fun _ _ => 0 } 0 rfl⟩

/-- Degenerate patches: a patch of fewer than 7 rows has cells of side 0 and therefore no
ring pixel at all; on the 6x6 patch below the border check passes on empty cells and the
analyzer returns the id 0 with `nRotations = -1`, the unpropagated failure of the
resolver. -/
theorem tiny_patch_not_rejected :
    ({ rows := 6, cols := 6, pix := fun _ _ => 255 } : Image).cols
        = ({ rows := 6, cols := 6, pix := fun _ _ => 255 } : Image).rows ∧
    (∀ y x : Nat, ({ rows := 6, cols := 6, pix := fun _ _ => 255 } : Image).pix y x ≠ 0) ∧
      analyzeMarkerImage { rows := 6, cols := 6, pix := fun _ _ => 255 } 0 = some (0, -1) := by
  refine ⟨rfl, fun _ _ => (show (255 : Nat) ≠ 0 by decide), ?_⟩
  have hz : ∀ cx cy : Nat,
      nonZeroInCell { rows := 6, cols := 6, pix := fun _ _ => 255 } (6 / 7) cx cy = 0 :=
    fun cx cy => nonZeroInCell_eq_zero _ _ _ _ (fun dy _ hdy _ => absurd hdy (Nat.not_lt_zero dy))
  rw [analyzeMarkerImage_inside _ _ (by decide)]
  dsimp only
  have hany : borderCells.any (fun c =>
      decide (nonZeroInCell { rows := 6, cols := 6, pix := fun _ _ => 255 } (6 / 7) c.1 c.2
        > (6 / 7 * (6 / 7)) / 2)) = false := by
    rw [List.any_eq_false]
    intro c _
    rw [hz]
    simp
  have hbits : (fun (y x : Fin 5) =>
      if nonZeroInCell { rows := 6, cols := 6, pix := fun _ _ => 255 } (6 / 7)
          (x.val + 1) (y.val + 1) > (6 / 7 * (6 / 7)) / 2 then 1 else 0) = zeroGrid := by
    funext y x
    rw [hz, if_neg (Nat.not_lt_zero _)]
    rfl
  rw [hany, hbits, rotate_fails zeroGrid zeroGrid (fun i => by
    rw [rotateNTimes_zeroGrid, distance_zeroGrid]
    decide)]
  simp only [Bool.false_eq_true, if_false, decode_zeroGrid]

/-- A square patch has a pixel in the outer ring of its 7x7 cells exactly when it has at
least 7 rows, that is when its cells are not empty. -/
theorem ring_has_pixel_iff (rows : Nat) :
    (∃ y x : Nat, y < 7 * (rows / 7) ∧ x < 7 * (rows / 7) ∧
      (y < rows / 7 ∨ 6 * (rows / 7) ≤ y ∨ x < rows / 7 ∨ 6 * (rows / 7) ≤ x)) ↔ 7 ≤ rows := by
  constructor
  · rintro ⟨y, x, hy, _⟩
    omega
  · intro h
    exact ⟨0, 0, by omega, by omega, Or.inl (by omega)⟩

/-- Claim C10 (border rejection): for every square patch that has an outer ring of 7x7
cells (at least one ring pixel, which is the same as at least 7 rows) and in which every
pixel of that outer ring is foreground (non-zero), `analyzeMarkerImage` fails with -1 and
leaves `nRotations` untouched, whatever the inner 5x5 cells contain. -/
theorem ring_foreground_rejected (grey : Image) (nRotations : Int)
    (hsq : grey.cols = grey.rows)
    (hex : ∃ y x : Nat, y < 7 * (grey.rows / 7) ∧ x < 7 * (grey.rows / 7) ∧
      (y < grey.rows / 7 ∨ 6 * (grey.rows / 7) ≤ y ∨ x < grey.rows / 7 ∨
        6 * (grey.rows / 7) ≤ x))
    (hring : ∀ y x : Nat, y < 7 * (grey.rows / 7) → x < 7 * (grey.rows / 7) →
      (y < grey.rows / 7 ∨ 6 * (grey.rows / 7) ≤ y ∨ x < grey.rows / 7 ∨
        6 * (grey.rows / 7) ≤ x) → grey.pix y x ≠ 0) :
    analyzeMarkerImage grey nRotations = some (-1, nRotations) := by
  have hc : 7 * (grey.rows / 7) ≤ grey.cols := by
    rw [hsq]
    exact Nat.mul_div_le grey.rows 7
  have hs : 1 ≤ grey.rows / 7 := by
    obtain ⟨y, x, hy, _⟩ := hex
    omega
  have hfull : nonZeroInCell grey (grey.rows / 7) 0 0 = grey.rows / 7 * (grey.rows / 7) :=
    nonZeroInCell_eq_full grey _ 0 0 (fun dy dx hdy hdx =>
      hring _ _ (by omega) (by omega) (Or.inl (by omega)))
  rw [analyzeMarkerImage_inside grey nRotations hc, if_pos]
  rw [List.any_eq_true]
  refine ⟨(0, 0), (mem_borderCells 0 0).2 (by decide), decide_eq_true ?_⟩
  show nonZeroInCell grey (grey.rows / 7) 0 0 > _
  rw [hfull]
  exact full_cell_gt_half _ hs

theorem ring_foreground_rejected_witness :
    (({ rows := 7, cols := 7, pix := fun _ _ => 255 } : Image).cols
        = ({ rows := 7, cols := 7, pix := fun _ _ => 255 } : Image).rows ∧
      (∃ y x : Nat, y < 7 * (7 / 7) ∧ x < 7 * (7 / 7) ∧
        (y < 7 / 7 ∨ 6 * (7 / 7) ≤ y ∨ x < 7 / 7 ∨ 6 * (7 / 7) ≤ x)) ∧
      (∀ y x : Nat, ({ rows := 7, cols := 7, pix := fun _ _ => 255 } : Image).pix y x ≠ 0)) ∧
    analyzeMarkerImage { rows := 7, cols := 7, pix := fun _ _ => 255 } 3 = some (-1, 3) :=
  ⟨⟨rfl, ⟨0, 0, by decide, by decide, Or.inl (by decide)⟩,
      fun _ _ => (show (255 : Nat) ≠ 0 by decide)⟩,
    ring_foreground_rejected { rows := 7, cols := 7, pix := fun _ _ => 255 } 3 rfl
      ⟨0, 0, by decide, by decide, Or.inl (by decide)⟩
      (fun _ _ _ _ _ => (show (255 : Nat) ≠ 0 by decide))⟩

/-! ## Rendering a marker -/

theorem foldl_foldl_pairs {β γ δ : Type} (f : β → γ → δ → β) (l1 : List γ) (l2 : List δ)
    (b : β) :
    l1.foldl (fun m y => l2.foldl (fun m x => f m y x) m) b
      = (l1.flatMap (fun y => l2.map (fun x => (y, x)))).foldl (fun m c => f m c.1 c.2) b := by
  induction l1 generalizing b with
  | nil => rfl
  | cons y t ih =>
    rw [List.foldl_cons, ih, List.flatMap_cons, List.foldl_append, List.foldl_map]

theorem foldl_setRoi_shape {α : Type} (rect : α → Rect) (val : α → Nat) (l : List α)
    (m0 : Image) :
    (l.foldl (fun m c => m.setRoi (rect c) (val c)) m0).rows = m0.rows ∧
      (l.foldl (fun m c => m.setRoi (rect c) (val c)) m0).cols = m0.cols := by
  induction l generalizing m0 with
  | nil => exact ⟨rfl, rfl⟩
  | cons c t ih => exact ih _

theorem foldl_setRoi_outside {α : Type} (rect : α → Rect) (val : α → Nat) (l : List α)
    (m0 : Image) (py px : Nat)
    (h : ∀ c ∈ l, ¬ ((rect c).y ≤ py ∧ py < (rect c).y + (rect c).height ∧
      (rect c).x ≤ px ∧ px < (rect c).x + (rect c).width)) :
    (l.foldl (fun m c => m.setRoi (rect c) (val c)) m0).pix py px = m0.pix py px := by
  induction l generalizing m0 with
  | nil => rfl
  | cons c t ih =>
    rw [List.foldl_cons, ih _ (fun d hd => h d (List.mem_cons_of_mem c hd))]
    show (if _ then _ else _) = _
    rw [if_neg (h c (List.mem_cons_self c t))]

theorem foldl_setRoi_inside {α : Type} (rect : α → Rect) (val : α → Nat) (l : List α)
    (m0 : Image) (py px v : Nat)
    (hex : ∃ c ∈ l, (rect c).y ≤ py ∧ py < (rect c).y + (rect c).height ∧
      (rect c).x ≤ px ∧ px < (rect c).x + (rect c).width)
    (hall : ∀ c ∈ l, ((rect c).y ≤ py ∧ py < (rect c).y + (rect c).height ∧
      (rect c).x ≤ px ∧ px < (rect c).x + (rect c).width) → val c = v) :
    (l.foldl (fun m c => m.setRoi (rect c) (val c)) m0).pix py px = v := by
  induction l generalizing m0 with
  | nil =>
    obtain ⟨c, hc, _⟩ := hex
    exact absurd hc (List.not_mem_nil c)
  | cons c t ih =>
    rw [List.foldl_cons]
    by_cases ht : ∃ d ∈ t, (rect d).y ≤ py ∧ py < (rect d).y + (rect d).height ∧
        (rect d).x ≤ px ∧ px < (rect d).x + (rect d).width
    · exact ih _ ht (fun d hd => hall d (List.mem_cons_of_mem c hd))
    · rw [foldl_setRoi_outside rect val t _ py px (fun d hd hin => ht ⟨d, hd, hin⟩)]
      obtain ⟨e, he, hin⟩ := hex
      rcases List.mem_cons.1 he with rfl | het
      · show (if _ then _ else _) = _
        rw [if_pos hin]
        exact hall e (List.mem_cons_self e t) hin
      · exact absurd ⟨e, het, hin⟩ ht

theorem cell_index_unique (s a b p : Nat) (h1 : a * s ≤ p) (h2 : p < a * s + s)
    (h3 : b * s ≤ p) (h4 : p < b * s + s) : a = b := by
  by_contra hne
  rcases Nat.lt_or_gt_of_ne hne with hlt | hgt
  · have := Nat.mul_le_mul_right s (show a + 1 ≤ b from hlt)
    rw [Nat.add_mul, Nat.one_mul] at this
    omega
  · have := Nat.mul_le_mul_right s (show b + 1 ≤ a from hgt)
    rw [Nat.add_mul, Nat.one_mul] at this
    omega

theorem mem_all_pairs (c : Fin 5 × Fin 5) :
    c ∈ rows5.flatMap (fun y => rows5.map (fun x => (y, x))) := by
  rw [List.mem_flatMap]
  exact ⟨c.1, mem_rows5 c.1, List.mem_map.2 ⟨c.2, mem_rows5 c.2, rfl⟩⟩

theorem encodeCell_zero_or_one (id : Int) (y x : Fin 5) :
    encodeCell id y x = 0 ∨ encodeCell id y x = 1 := by
  unfold encodeCell
  dsimp only
  split_ifs
  · exact Or.inr rfl
  · exact Or.inl rfl

/-- The marker image without watermark in closed form: the 25 inner cells painted in
row-major order over a black `size x size` image. -/
theorem createMarkerImage_eq (putText : Image → Int → Image) (n : Nat) (hn : n < 1024)
    (size : Nat) :
    createMarkerImage putText (n : Int) size false
      = some ((rows5.flatMap (fun y => rows5.map (fun x => (y, x)))).foldl
          (fun m c => m.setRoi (cellRect (size / 7) (c.2.val + 1) (c.1.val + 1))
            (if encodeCell (n : Int) c.1 c.2 = 1 then 255 else 0))
          { rows := size, cols := size, pix := fun _ _ => 0 }) := by
  have he : encode (n : Int) zeroGrid = (0, fun y x => encodeCell (n : Int) y x) := by
    unfold encode
    rw [if_pos ⟨by omega, by omega⟩]
  have hf : ∀ (m : Image) (y x : Fin 5),
      (if encodeCell (n : Int) y x = 1
        then m.setRoi (cellRect (size / 7) (x.val + 1) (y.val + 1)) 255
        else m.setRoi (cellRect (size / 7) (x.val + 1) (y.val + 1)) 0)
      = m.setRoi (cellRect (size / 7) (x.val + 1) (y.val + 1))
          (if encodeCell (n : Int) y x = 1 then 255 else 0) := by
    intro m y x
    split_ifs <;> rfl
  unfold createMarkerImage
  rw [he]
  dsimp only
  rw [if_neg (show ¬ ((0 : Int) = -1) by decide)]
  simp only [Bool.false_eq_true, if_false, hf]
  exact congrArg some (foldl_foldl_pairs
    (fun (m : Image) (y x : Fin 5) => m.setRoi (cellRect (size / 7) (x.val + 1) (y.val + 1))
      (if encodeCell (n : Int) y x = 1 then 255 else 0)) rows5 rows5 _)

theorem painted_ring_pixel (n s : Nat) (m0 : Image) (h0 : ∀ y x, m0.pix y x = 0)
    (cx cy dy dx : Nat) (hring : cx = 0 ∨ cx = 6 ∨ cy = 0 ∨ cy = 6)
    (hdy : dy < s) (hdx : dx < s) :
    ((rows5.flatMap (fun y => rows5.map (fun x => (y, x)))).foldl
        (fun m c => m.setRoi (cellRect s (c.2.val + 1) (c.1.val + 1))
          (if encodeCell (n : Int) c.1 c.2 = 1 then 255 else 0)) m0).pix
      (cy * s + dy) (cx * s + dx) = 0 := by
  rw [foldl_setRoi_outside (fun c : Fin 5 × Fin 5 => cellRect s (c.2.val + 1) (c.1.val + 1))
    (fun c => if encodeCell (n : Int) c.1 c.2 = 1 then 255 else 0) _ m0 _ _ ?_]
  · exact h0 _ _
  · intro c _ hin
    unfold cellRect at hin
    dsimp only at hin
    have hy := cell_index_unique s cy (c.1.val + 1) (cy * s + dy) (by omega) (by omega)
      hin.1 hin.2.1
    have hx := cell_index_unique s cx (c.2.val + 1) (cx * s + dx) (by omega) (by omega)
      hin.2.2.1 hin.2.2.2
    have := c.1.isLt
    have := c.2.isLt
    omega

theorem painted_inner_pixel (n s : Nat) (m0 : Image) (y x : Fin 5) (dy dx : Nat)
    (hdy : dy < s) (hdx : dx < s) :
    ((rows5.flatMap (fun y => rows5.map (fun x => (y, x)))).foldl
        (fun m c => m.setRoi (cellRect s (c.2.val + 1) (c.1.val + 1))
          (if encodeCell (n : Int) c.1 c.2 = 1 then 255 else 0)) m0).pix
      ((y.val + 1) * s + dy) ((x.val + 1) * s + dx)
      = if encodeCell (n : Int) y x = 1 then 255 else 0 := by
  apply foldl_setRoi_inside (fun c : Fin 5 × Fin 5 => cellRect s (c.2.val + 1) (c.1.val + 1))
    (fun c => if encodeCell (n : Int) c.1 c.2 = 1 then 255 else 0)
  · refine ⟨(y, x), mem_all_pairs _, ?_⟩
    unfold cellRect
    dsimp only
    omega
  · intro c _ hin
    unfold cellRect at hin
    dsimp only at hin
    have hy := cell_index_unique s (c.1.val + 1) (y.val + 1) ((y.val + 1) * s + dy)
      hin.1 hin.2.1 (by omega) (by omega)
    have hx := cell_index_unique s (c.2.val + 1) (x.val + 1) ((x.val + 1) * s + dx)
      hin.2.2.1 hin.2.2.2 (by omega) (by omega)
    have e1 : c.1 = y := Fin.ext (by omega)
    have e2 : c.2 = x := Fin.ext (by omega)
    rw [e1, e2]

/-- The analyzer on any image whose outer-ring cells are black and whose inner cells are
filled according to the grid of `n`: it returns `n` with rotation count 0. -/
theorem analyze_of_rendered (img : Image) (n size : Nat) (nRotations : Int)
    (hn : n < 1024) (hs : 7 ≤ size) (hrows : img.rows = size) (hcols : img.cols = size)
    (hring : ∀ cx cy dy dx : Nat, (cx = 0 ∨ cx = 6 ∨ cy = 0 ∨ cy = 6) →
      dy < size / 7 → dx < size / 7 → img.pix (cy * (size / 7) + dy) (cx * (size / 7) + dx) = 0)
    (hinner : ∀ (y x : Fin 5) (dy dx : Nat), dy < size / 7 → dx < size / 7 →
      img.pix ((y.val + 1) * (size / 7) + dy) ((x.val + 1) * (size / 7) + dx)
        = if encodeCell (n : Int) y x = 1 then 255 else 0) :
    analyzeMarkerImage img nRotations = some ((n : Int), 0) := by
  have hs1 : 1 ≤ size / 7 := by omega
  rw [analyzeMarkerImage_inside img nRotations (by
    rw [hrows, hcols]
    exact Nat.mul_div_le size 7)]
  rw [hrows]
  have hany : borderCells.any (fun c =>
      decide (nonZeroInCell img (size / 7) c.1 c.2 > (size / 7 * (size / 7)) / 2)) = false := by
    rw [List.any_eq_false]
    intro c hc
    have hm := (mem_borderCells c.1 c.2).1 hc
    rw [nonZeroInCell_eq_zero img _ c.1 c.2
      (fun dy dx hdy hdx => hring c.1 c.2 dy dx hm.2.2 hdy hdx)]
    simp
  have hbits : (fun (y x : Fin 5) =>
      if nonZeroInCell img (size / 7) (x.val + 1) (y.val + 1) > (size / 7 * (size / 7)) / 2
      then 1 else 0) = fun y x => encodeCell (n : Int) y x := by
    funext y x
    rcases encodeCell_zero_or_one (n : Int) y x with h | h
    · rw [nonZeroInCell_eq_zero img _ _ _ (fun dy dx hdy hdx => by
        rw [hinner y x dy dx hdy hdx, h]
        rfl), if_neg (Nat.not_lt_zero _), h]
    · rw [nonZeroInCell_eq_full img _ _ _ (fun dy dx hdy hdx => by
        rw [hinner y x dy dx hdy hdx, h]
        decide), if_pos (full_cell_gt_half _ hs1), h]
  have hdec := decode_rotated_encode n hn 0 (Nat.zero_le 3)
  have hrot0 : rotateNTimes 0 (fun y x => encodeCell (n : Int) y x)
      = fun y x => encodeCell (n : Int) y x := rfl
  rw [hrot0] at hdec
  have hrot := rotate_rotated_encode n hn 0 (Nat.zero_le 3) zeroGrid
  rw [hrot0] at hrot
  rw [hany, hbits, hrot, if_neg (by decide)]
  dsimp only
  rw [hdec]
  split_ifs <;> rfl

/-- Claim C8 (render-then-analyze round trip): for every id in `[0,1023]` and every pixel
size at least 7, `createMarkerImage(id, size, false)` returns a `size x size` image whose
24 outer-ring cells (cell side `size/7`) are entirely 0 and whose inner cell `(y, x)` is
entirely 255 or entirely 0 according to `encode(id)`, and `analyzeMarkerImage` on that
image returns `id` with `nRotations = 0`. -/
theorem render_then_analyze (putText : Image → Int → Image) (id : Int) (size : Nat)
    (nRotations : Int) (h0 : 0 ≤ id) (h1 : id ≤ 1023) (hs : 7 ≤ size) :
    ∃ img : Image, createMarkerImage putText id size false = some img ∧
      img.rows = size ∧ img.cols = size ∧
      (∀ cx cy dy dx : Nat, cx < 7 → cy < 7 → (cx = 0 ∨ cx = 6 ∨ cy = 0 ∨ cy = 6) →
        dy < size / 7 → dx < size / 7 →
        img.pix (cy * (size / 7) + dy) (cx * (size / 7) + dx) = 0) ∧
      (∀ (y x : Fin 5) (dy dx : Nat), dy < size / 7 → dx < size / 7 →
        img.pix ((y.val + 1) * (size / 7) + dy) ((x.val + 1) * (size / 7) + dx)
          = if (encode id zeroGrid).2 y x = 1 then 255 else 0) ∧
      analyzeMarkerImage img nRotations = some (id, 0) := by
  obtain ⟨n, hn, hid, he⟩ := encode_of_valid id zeroGrid h0 h1
  rw [he, hid, createMarkerImage_eq putText n hn size]
  have hshape := foldl_setRoi_shape
    (fun c : Fin 5 × Fin 5 => cellRect (size / 7) (c.2.val + 1) (c.1.val + 1))
    (fun c => if encodeCell (n : Int) c.1 c.2 = 1 then 255 else 0)
    (rows5.flatMap (fun y => rows5.map (fun x => (y, x))))
    { rows := size, cols := size, pix := fun _ _ => 0 }
  have hring := fun (cx cy dy dx : Nat) (hr : cx = 0 ∨ cx = 6 ∨ cy = 0 ∨ cy = 6)
      (hdy : dy < size / 7) (hdx : dx < size / 7) =>
    painted_ring_pixel n (size / 7) { rows := size, cols := size, pix := fun _ _ => 0 }
      (fun _ _ => rfl) cx cy dy dx hr hdy hdx
  have hinner := fun (y x : Fin 5) (dy dx : Nat) (hdy : dy < size / 7) (hdx : dx < size / 7) =>
    painted_inner_pixel n (size / 7) { rows := size, cols := size, pix := fun _ _ => 0 }
      y x dy dx hdy hdx
  exact ⟨_, rfl, hshape.1, hshape.2,
    fun cx cy dy dx _ _ hr hdy hdx => hring cx cy dy dx hr hdy hdx, hinner,
    analyze_of_rendered _ n size nRotations hn hs hshape.1 hshape.2 hring hinner⟩

theorem render_then_analyze_witness :
    ((0 : Int) ≤ 110 ∧ (110 : Int) ≤ 1023 ∧ 7 ≤ 21) ∧
    ∃ img : Image, createMarkerImage (fun m _ => m) 110 21 false = some img ∧
      img.rows = 21 ∧ img.cols = 21 ∧
      (∀ cx cy dy dx : Nat, cx < 7 → cy < 7 → (cx = 0 ∨ cx = 6 ∨ cy = 0 ∨ cy = 6) →
        dy < 21 / 7 → dx < 21 / 7 →
        img.pix (cy * (21 / 7) + dy) (cx * (21 / 7) + dx) = 0) ∧
      (∀ (y x : Fin 5) (dy dx : Nat), dy < 21 / 7 → dx < 21 / 7 →
        img.pix ((y.val + 1) * (21 / 7) + dy) ((x.val + 1) * (21 / 7) + dx)
          = if (encode 110 zeroGrid).2 y x = 1 then 255 else 0) ∧
      analyzeMarkerImage img 7 = some (110, 0) :=
  ⟨⟨by decide, by decide, by decide⟩,
    render_then_analyze (fun m _ => m) 110 21 7 (by decide) (by decide) (by decide)⟩

/-- Whenever the border check passes and no orientation of the sampled grid has code
distance 0, the analyzer returns the id 0 together with `nRotations = -1`: `bits` is still
the zero matrix when `decode` packs it. -/
theorem analyze_unresolved (grey : Image) (nRotations : Int)
    (hc : 7 * (grey.rows / 7) ≤ grey.cols)
    (hborder : ∀ c ∈ borderCells,
      ¬ nonZeroInCell grey (grey.rows / 7) c.1 c.2 > (grey.rows / 7 * (grey.rows / 7)) / 2)
    (hrot : ∀ i : Fin 4, distance (rotateNTimes i.val (fun y x =>
      if nonZeroInCell grey (grey.rows / 7) (x.val + 1) (y.val + 1)
          > (grey.rows / 7 * (grey.rows / 7)) / 2 then 1 else 0)) ≠ 0) :
    analyzeMarkerImage grey nRotations = some (0, -1) := by
  have hany : borderCells.any (fun c =>
      decide (nonZeroInCell grey (grey.rows / 7) c.1 c.2
        > (grey.rows / 7 * (grey.rows / 7)) / 2)) = false := by
    rw [List.any_eq_false]
    intro c hcm
    exact decide_eq_false (hborder c hcm) ▸ Bool.false_ne_true
  rw [analyzeMarkerImage_inside grey nRotations hc, hany, if_neg (by decide),
    rotate_fails _ zeroGrid hrot]
  dsimp only
  rw [decode_zeroGrid]

/-! ## Bit errors in one row of an encoded grid -/

theorem flipTwo_row (g : Grid) (y c1 c2 x : Fin 5) (hne : c1 ≠ c2) :
    flipTwo g y c1 c2 y x = if x = c1 ∨ x = c2 then 1 - g y x else g y x := by
  unfold flipTwo flipBit
  by_cases h2 : x = c2
  · subst h2
    have h1 : ¬ x = c1 := fun h => hne h.symm
    simp [h1]
  · by_cases h1 : x = c1
    · subst h1
      simp [hne]
    · simp [h1, h2]

theorem flipTwo_other_row (g : Grid) (y c1 c2 y1 x : Fin 5) (hy : y1 ≠ y) :
    flipTwo g y c1 c2 y1 x = g y1 x := by
  unfold flipTwo flipBit
  simp [hy]

theorem flipBit_row (g : Grid) (y c x : Fin 5) :
    flipBit g y c y x = if x = c then 1 - g y x else g y x := by
  unfold flipBit
  simp

/-- A codeword with two distinct bits inverted is not a codeword. -/
theorem two_flips_not_codeword : ∀ d p : Fin 4, ∀ c1 c2 : Fin 5, c1 ≠ c2 →
    ¬ ∀ x : Fin 5, (if x = c1 ∨ x = c2 then 1 - (ids.getD d.val []).getD x.val 0
        else (ids.getD d.val []).getD x.val 0) = (ids.getD p.val []).getD x.val 0 := by
  decide!

/-- A codeword with one bit inverted is not a codeword. -/
theorem one_flip_not_codeword : ∀ d p : Fin 4, ∀ c : Fin 5,
    ¬ ∀ x : Fin 5, (if x = c then 1 - (ids.getD d.val []).getD x.val 0
        else (ids.getD d.val []).getD x.val 0) = (ids.getD p.val []).getD x.val 0 := by
  decide!

/-- Four codewords cannot agree, in all positions but one, with the column relations that
every codeword row satisfies (`v0 + v1 = 1`, `v4 = v1 xor v2`). -/
theorem no_codeword_columns : ∀ a b c e : Fin 4, ∀ t : Fin 5,
    ¬ ∀ j : Fin 5, j ≠ t →
      ((ids.getD a.val []).getD j.val 0 + (ids.getD b.val []).getD j.val 0 = 1 ∧
       (ids.getD e.val []).getD j.val 0
        = ((ids.getD b.val []).getD j.val 0 + (ids.getD c.val []).getD j.val 0) % 2) := by
  decide!

/-- The relations between the columns of a codeword row of an encoded grid. -/
theorem encodeCell_relations (n : Nat) (y : Fin 5) :
    encodeCell (n : Int) y 0 + encodeCell (n : Int) y 1 = 1 ∧
    encodeCell (n : Int) y 4
      = (encodeCell (n : Int) y 1 + encodeCell (n : Int) y 2) % 2 := by
  rw [encodeCell_natCast, encodeCell_natCast, encodeCell_natCast, encodeCell_natCast]
  have hlt : (n >>> (2 * (4 - y.val))) &&& 3 < 4 := Nat.lt_succ_of_le Nat.and_le_right
  generalize (n >>> (2 * (4 - y.val))) &&& 3 = d at hlt
  interval_cases d <;> decide

theorem distance_rot1_one_row_changed (n : Nat) (G : Grid) (y0 : Fin 5)
    (h : ∀ y x : Fin 5, y ≠ y0 → G y x = encodeCell (n : Int) y x) :
    distance (rotateNTimes 1 G) ≠ 0 := by
  intro hd
  rw [distance_eq_zero_iff] at hd
  obtain ⟨p0, hp0⟩ := (rowMin_eq_zero_iff_exists _).1 (hd 0)
  obtain ⟨p1, hp1⟩ := (rowMin_eq_zero_iff_exists _).1 (hd 1)
  obtain ⟨p2, hp2⟩ := (rowMin_eq_zero_iff_exists _).1 (hd 2)
  obtain ⟨p4, hp4⟩ := (rowMin_eq_zero_iff_exists _).1 (hd 4)
  apply no_codeword_columns p0 p1 p2 p4 ⟨5 - y0.val - 1, by omega⟩
  intro j hj
  have hy : (⟨5 - j.val - 1, by omega⟩ : Fin 5) ≠ y0 := by
    intro e
    apply hj
    apply Fin.ext
    have := congrArg Fin.val e
    simp only at this
    show j.val = 5 - y0.val - 1
    omega
  have e0 : G ⟨5 - j.val - 1, by omega⟩ 0 = (ids.getD p0.val []).getD j.val 0 := hp0 j
  have e1 : G ⟨5 - j.val - 1, by omega⟩ 1 = (ids.getD p1.val []).getD j.val 0 := hp1 j
  have e2 : G ⟨5 - j.val - 1, by omega⟩ 2 = (ids.getD p2.val []).getD j.val 0 := hp2 j
  have e4 : G ⟨5 - j.val - 1, by omega⟩ 4 = (ids.getD p4.val []).getD j.val 0 := hp4 j
  rw [h _ _ hy] at e0 e1 e2 e4
  rw [← e0, ← e1, ← e2, ← e4]
  exact encodeCell_relations n _

theorem distance_rot3_one_row_changed (n : Nat) (G : Grid) (y0 : Fin 5)
    (h : ∀ y x : Fin 5, y ≠ y0 → G y x = encodeCell (n : Int) y x) :
    distance (rotateNTimes 3 G) ≠ 0 := by
  intro hd
  rw [distance_eq_zero_iff] at hd
  obtain ⟨p0, hp0⟩ := (rowMin_eq_zero_iff_exists _).1 (hd 0)
  obtain ⟨p2, hp2⟩ := (rowMin_eq_zero_iff_exists _).1 (hd 2)
  obtain ⟨p3, hp3⟩ := (rowMin_eq_zero_iff_exists _).1 (hd 3)
  obtain ⟨p4, hp4⟩ := (rowMin_eq_zero_iff_exists _).1 (hd 4)
  apply no_codeword_columns p4 p3 p2 p0 y0
  intro j hj
  have hy : (⟨5 - (5 - j.val - 1) - 1, by omega⟩ : Fin 5) = j := by
    apply Fin.ext
    show 5 - (5 - j.val - 1) - 1 = j.val
    omega
  have e0 : G ⟨5 - (5 - j.val - 1) - 1, by omega⟩ 4 = (ids.getD p0.val []).getD j.val 0 := hp0 j
  have e2 : G ⟨5 - (5 - j.val - 1) - 1, by omega⟩ 2 = (ids.getD p2.val []).getD j.val 0 := hp2 j
  have e3 : G ⟨5 - (5 - j.val - 1) - 1, by omega⟩ 1 = (ids.getD p3.val []).getD j.val 0 := hp3 j
  have e4 : G ⟨5 - (5 - j.val - 1) - 1, by omega⟩ 0 = (ids.getD p4.val []).getD j.val 0 := hp4 j
  rw [hy, h _ _ hj] at e0 e2 e3 e4
  rw [← e0, ← e2, ← e3, ← e4]
  exact encodeCell_relations n _

theorem distance_rot2_one_row_changed (n : Nat) (G : Grid) (y0 : Fin 5)
    (h : ∀ y x : Fin 5, y ≠ y0 → G y x = encodeCell (n : Int) y x)
    (hd : distance (rotateNTimes 2 G) = 0) (y : Fin 5) (hy0 : y ≠ y0) :
    (n >>> (2 * (4 - y.val))) &&& 3 = 3 := by
  rw [distance_eq_zero_iff] at hd
  obtain ⟨p, hp⟩ := (rowMin_eq_zero_iff_exists _).1 (hd ⟨5 - y.val - 1, by omega⟩)
  have hlt : (n >>> (2 * (4 - y.val))) &&& 3 < 4 := Nat.lt_succ_of_le Nat.and_le_right
  have key := mirrored_codeword ⟨(n >>> (2 * (4 - y.val))) &&& 3, hlt⟩ p (by
    intro j
    have hy : (⟨5 - (⟨5 - y.val - 1, by omega⟩ : Fin 5).val - 1, by omega⟩ : Fin 5) = y := by
      apply Fin.ext
      show 5 - (5 - y.val - 1) - 1 = y.val
      omega
    have e : G ⟨5 - (⟨5 - y.val - 1, by omega⟩ : Fin 5).val - 1, by omega⟩
        ⟨5 - j.val - 1, by omega⟩ = (ids.getD p.val []).getD j.val 0 := hp j
    rw [hy, h _ _ hy0, encodeCell_natCast] at e
    rw [← e]
    show _ = (ids.getD ((n >>> (2 * (4 - y.val))) &&& 3) []).getD (5 - j.val - 1) 0
    have : 5 - j.val - 1 = 4 - j.val := by omega
    rw [this])
  exact congrArg Fin.val key

theorem codewordTable_eq : ∀ (p : Fin 4) (x : Fin 5),
    codewordTable p x = (ids.getD p.val []).getD x.val 0 := by
  decide

theorem flipTwo_row_not_codeword (n : Nat) (y c1 c2 : Fin 5) (hne : c1 ≠ c2) (p : Fin 4) :
    ¬ ∀ x : Fin 5, flipTwo (fun y x => encodeCell (n : Int) y x) y c1 c2 y x
        = (ids.getD p.val []).getD x.val 0 := by
  intro h
  have hlt : (n >>> (2 * (4 - y.val))) &&& 3 < 4 := Nat.lt_succ_of_le Nat.and_le_right
  apply two_flips_not_codeword ⟨(n >>> (2 * (4 - y.val))) &&& 3, hlt⟩ p c1 c2 hne
  intro x
  have hx := h x
  rw [flipTwo_row _ _ _ _ _ hne, encodeCell_natCast] at hx
  exact hx

theorem distance_flipTwo_ne_zero (n : Nat) (y c1 c2 : Fin 5) (hne : c1 ≠ c2) :
    distance (flipTwo (fun y x => encodeCell (n : Int) y x) y c1 c2) ≠ 0 := by
  intro hd
  rw [distance_eq_zero_iff] at hd
  obtain ⟨p, hp⟩ := (rowMin_eq_zero_iff_exists _).1 (hd y)
  exact flipTwo_row_not_codeword n y c1 c2 hne p hp

/-- The resolver on a grid whose orientations 0, 1 and 3 have positive distance. -/
theorem rotate_of_half_turn_only (g out : Grid) (h0 : distance g ≠ 0)
    (h1 : distance (rotateNTimes 1 g) ≠ 0) (h3 : distance (rotateNTimes 3 g) ≠ 0) :
    rotate g out
      = if distance (rotateNTimes 2 g) = 0 then (2, rotateNTimes 2 g) else (-1, out) := by
  rw [rotate_eq, if_neg h0, if_neg h1]
  by_cases c : distance (rotateNTimes 2 g) = 0
  · rw [if_pos c, if_pos c]
  · rw [if_neg c, if_neg c, if_neg h3]

theorem rotate_flipTwo (n : Nat) (y c1 c2 : Fin 5) (hne : c1 ≠ c2) (out : Grid) :
    rotate (flipTwo (fun y x => encodeCell (n : Int) y x) y c1 c2) out
      = if distance (rotateNTimes 2 (flipTwo (fun y x => encodeCell (n : Int) y x) y c1 c2)) = 0
        then (2, rotateNTimes 2 (flipTwo (fun y x => encodeCell (n : Int) y x) y c1 c2))
        else (-1, out) :=
  rotate_of_half_turn_only _ out (distance_flipTwo_ne_zero n y c1 c2 hne)
    (distance_rot1_one_row_changed n _ y (fun y1 x hy => flipTwo_other_row _ y c1 c2 y1 x hy))
    (distance_rot3_one_row_changed n _ y (fun y1 x hy => flipTwo_other_row _ y c1 c2 y1 x hy))

theorem rot2_flipTwo_255 :
    rotateNTimes 2 (flipTwo (fun y x => encodeCell ((255 : Nat) : Int) y x) 0 0 4)
      = fun y x => encodeCell ((1020 : Nat) : Int) y x := by
  have h : ∀ y x : Fin 5,
      rotateNTimes 2 (flipTwo (fun y x => encodeCell ((255 : Nat) : Int) y x) 0 0 4) y x
        = encodeCell ((1020 : Nat) : Int) y x := by decide!
  funext y x
  exact h y x

/-- Counterexample to claim C11 as stated: `encode(255)` with the bits of columns 0 and 4
of row 0 inverted is the half turn of `encode(1020)`, so the resolver accepts it with
rotation count 2. -/
theorem two_flips_accepted :
    (0 : Fin 5) ≠ 4 ∧
    rotate (flipTwo (encode 255 zeroGrid).2 0 0 4) zeroGrid = (2, (encode 1020 zeroGrid).2) ∧
    (rotate (flipTwo (encode 255 zeroGrid).2 0 0 4) zeroGrid).1 ≠ -1 := by
  obtain ⟨n, hn, hid, he⟩ := encode_of_valid 255 zeroGrid (by decide) (by decide)
  obtain ⟨m, hm, hmid, hme⟩ := encode_of_valid 1020 zeroGrid (by decide) (by decide)
  have hn255 : n = 255 := by omega
  have hm1020 : m = 1020 := by omega
  subst hn255
  subst hm1020
  have hd : distance (rotateNTimes 2
      (flipTwo (fun y x => encodeCell ((255 : Nat) : Int) y x) 0 0 4)) = 0 := by
    rw [rot2_flipTwo_255]
    exact distance_encode 1020
  rw [he, hme, rotate_flipTwo 255 0 0 4 (by decide) zeroGrid, if_pos hd, rot2_flipTwo_255]
  exact ⟨by decide, rfl, by decide⟩

/-- Claim C11, amended: for every id in `[0,1023]`, every row `y` and every pair of distinct
columns, inverting those two bits of `encode(id)` gives a grid whose row `y` matches none of
the 4 codewords; the corrupted grid and its one- and three-quarter turns have positive code
distance, so `rotate` returns -1 unless the half turn of the corrupted grid has code
distance 0, in which case it returns 2 with that half turn; in particular it returns -1,
leaving `out` alone, whenever some row other than `y` is not the codeword `0 1 1 1 0`. -/
theorem two_flips_resolver (id : Int) (out out2 : Grid) (y c1 c2 : Fin 5)
    (h0 : 0 ≤ id) (h1 : id ≤ 1023) (hne : c1 ≠ c2) :
    (∀ p : Fin 4, ¬ ∀ x : Fin 5,
      flipTwo (encode id out).2 y c1 c2 y x = codewordTable p x) ∧
    distance (flipTwo (encode id out).2 y c1 c2) ≠ 0 ∧
    distance (rotateNTimes 1 (flipTwo (encode id out).2 y c1 c2)) ≠ 0 ∧
    distance (rotateNTimes 3 (flipTwo (encode id out).2 y c1 c2)) ≠ 0 ∧
    ((rotate (flipTwo (encode id out).2 y c1 c2) out2).1 = -1 ↔
      distance (rotateNTimes 2 (flipTwo (encode id out).2 y c1 c2)) ≠ 0) ∧
    (distance (rotateNTimes 2 (flipTwo (encode id out).2 y c1 c2)) = 0 →
      rotate (flipTwo (encode id out).2 y c1 c2) out2
        = (2, rotateNTimes 2 (flipTwo (encode id out).2 y c1 c2))) ∧
    ((∃ y1 : Fin 5, y1 ≠ y ∧ ∃ x : Fin 5, (encode id out).2 y1 x ≠ codewordTable 3 x) →
      rotate (flipTwo (encode id out).2 y c1 c2) out2 = (-1, out2)) := by
  obtain ⟨n, hn, hid, he⟩ := encode_of_valid id out h0 h1
  rw [he]
  have hother : ∀ y1 x : Fin 5, y1 ≠ y →
      flipTwo (fun y x => encodeCell (n : Int) y x) y c1 c2 y1 x = encodeCell (n : Int) y1 x :=
    fun y1 x hy => flipTwo_other_row _ y c1 c2 y1 x hy
  have hrot := rotate_flipTwo n y c1 c2 hne out2
  refine ⟨?_, distance_flipTwo_ne_zero n y c1 c2 hne,
    distance_rot1_one_row_changed n _ y hother,
    distance_rot3_one_row_changed n _ y hother, ?_, ?_, ?_⟩
  · intro p h
    exact flipTwo_row_not_codeword n y c1 c2 hne p
      (fun x => (h x).trans (codewordTable_eq p x))
  · rw [hrot]
    by_cases c : distance (rotateNTimes 2
        (flipTwo (fun y x => encodeCell (n : Int) y x) y c1 c2)) = 0
    · rw [if_pos c]
      exact ⟨fun h => absurd (show (2 : Int) = -1 from h) (by decide), fun h => absurd c h⟩
    · rw [if_neg c]
      exact ⟨fun _ => c, fun _ => rfl⟩
  · intro c
    rw [hrot, if_pos c]
  · rintro ⟨y1, hy1, x, hx⟩
    rw [hrot, if_neg]
    intro c
    apply hx
    have hdigit := distance_rot2_one_row_changed n _ y hother c y1 hy1
    show encodeCell (n : Int) y1 x = codewordTable 3 x
    rw [encodeCell_natCast, hdigit, codewordTable_eq]
    rfl

theorem two_flips_resolver_witness :
    ((0 : Int) ≤ 110 ∧ (110 : Int) ≤ 1023 ∧ (1 : Fin 5) ≠ 3) ∧
    rotate (flipTwo (encode 110 zeroGrid).2 2 1 3) zeroGrid = (-1, zeroGrid) :=
  ⟨⟨by decide, by decide, by decide⟩,
    (two_flips_resolver 110 zeroGrid zeroGrid 2 1 3 (by decide) (by decide)
      (by decide)).2.2.2.2.2.2 ⟨0, by decide, 1, by decide⟩⟩

/-! ## Return value of the resolver -/

/-- Counterexample to claim C12 as stated: the half turn of `encode(5)` has an orientation
of code distance 0, and the resolver returns 2 for it, not 0. -/
theorem rotate_nonzero_success :
    distance (rotateNTimes 2 (rotateNTimes 2 (encode 5 zeroGrid).2)) = 0 ∧
    rotate (rotateNTimes 2 (encode 5 zeroGrid).2) zeroGrid = (2, (encode 5 zeroGrid).2) ∧
    (rotate (rotateNTimes 2 (encode 5 zeroGrid).2) zeroGrid).1 ≠ 0 := by
  obtain ⟨n, hn, hid, he⟩ := encode_of_valid 5 zeroGrid (by decide) (by decide)
  have hn5 : n = 5 := by omega
  subst hn5
  have e22 : rotateNTimes 2 (rotateNTimes 2 (fun y x => encodeCell ((5 : Nat) : Int) y x))
      = rotateNTimes 4 (fun y x => encodeCell ((5 : Nat) : Int) y x) := rfl
  rw [he, rotate_rotated_encode 5 hn 2 (by decide) zeroGrid, e22, rotateNTimes_four]
  exact ⟨distance_encode 5, rfl, by decide⟩

theorem rotate_result_cases (g out : Grid) :
    (rotate g out = (0, g) ∧ distance g = 0) ∨
    (rotate g out = (1, rotateNTimes 1 g) ∧ distance g ≠ 0 ∧
      distance (rotateNTimes 1 g) = 0) ∨
    (rotate g out = (2, rotateNTimes 2 g) ∧ distance g ≠ 0 ∧
      distance (rotateNTimes 2 g) = 0) ∨
    (rotate g out = (3, rotateNTimes 3 g) ∧ distance g ≠ 0 ∧
      distance (rotateNTimes 3 g) = 0) ∨
    (rotate g out = (-1, out) ∧ ∀ i : Fin 4, distance (rotateNTimes i.val g) ≠ 0) := by
  rw [rotate_eq]
  by_cases c0 : distance g = 0
  · rw [if_pos c0]
    exact Or.inl ⟨rfl, c0⟩
  rw [if_neg c0]
  by_cases c1 : distance (rotateNTimes 1 g) = 0
  · rw [if_pos c1]
    exact Or.inr (Or.inl ⟨rfl, c0, c1⟩)
  rw [if_neg c1]
  by_cases c2 : distance (rotateNTimes 2 g) = 0
  · rw [if_pos c2]
    exact Or.inr (Or.inr (Or.inl ⟨rfl, c0, c2⟩))
  rw [if_neg c2]
  by_cases c3 : distance (rotateNTimes 3 g) = 0
  · rw [if_pos c3]
    exact Or.inr (Or.inr (Or.inr (Or.inl ⟨rfl, c0, c3⟩)))
  rw [if_neg c3]
  refine Or.inr (Or.inr (Or.inr (Or.inr ⟨rfl, ?_⟩)))
  intro i
  fin_cases i
  · exact c0
  · exact c1
  · exact c2
  · exact c3

/-- On success the resolver returns the first index whose orientation has code distance 0,
together with that orientation. -/
theorem rotate_first_index (g out : Grid)
    (h : ∃ i : Fin 4, distance (rotateNTimes i.val g) = 0) :
    ∃ k : Fin 4, rotate g out = ((k.val : Int), rotateNTimes k.val g) ∧
      distance (rotateNTimes k.val g) = 0 ∧
      ∀ j : Fin 4, j < k → distance (rotateNTimes j.val g) ≠ 0 := by
  have e0 : rotateNTimes 0 g = g := rfl
  rw [rotate_eq]
  by_cases c0 : distance g = 0
  · rw [if_pos c0]
    exact ⟨0, rfl, c0, fun j hj => absurd hj (by omega)⟩
  rw [if_neg c0]
  by_cases c1 : distance (rotateNTimes 1 g) = 0
  · rw [if_pos c1]
    refine ⟨1, rfl, c1, fun j hj => ?_⟩
    fin_cases j
    · exact c0
    · exact absurd hj (by decide)
    · exact absurd hj (by decide)
    · exact absurd hj (by decide)
  rw [if_neg c1]
  by_cases c2 : distance (rotateNTimes 2 g) = 0
  · rw [if_pos c2]
    refine ⟨2, rfl, c2, fun j hj => ?_⟩
    fin_cases j
    · exact c0
    · exact c1
    · exact absurd hj (by decide)
    · exact absurd hj (by decide)
  rw [if_neg c2]
  by_cases c3 : distance (rotateNTimes 3 g) = 0
  · rw [if_pos c3]
    refine ⟨3, rfl, c3, fun j hj => ?_⟩
    fin_cases j
    · exact c0
    · exact c1
    · exact c2
    · exact absurd hj (by decide)
  obtain ⟨i, hi⟩ := h
  exfalso
  fin_cases i
  · exact c0 hi
  · exact c1 hi
  · exact c2 hi
  · exact c3 hi

/-- Claim C12, amended: `rotate` returns -1 if it could not find the normal orientation
(no orientation of code distance 0) and otherwise returns the rotation count, a value in
`{0,1,2,3}`: the index of the first rotation with code distance 0 (every earlier rotation
has positive distance), which is 0 exactly when the input grid itself has code distance
0. -/
theorem rotate_return_value (g out : Grid) :
    ((∀ i : Fin 4, distance (rotateNTimes i.val g) ≠ 0) → (rotate g out).1 = -1) ∧
    ((∃ i : Fin 4, distance (rotateNTimes i.val g) = 0) →
      ((rotate g out).1 = 0 ∨ (rotate g out).1 = 1 ∨ (rotate g out).1 = 2 ∨
        (rotate g out).1 = 3) ∧
      ((rotate g out).1 = 0 ↔ distance g = 0) ∧
      ∃ k : Fin 4, (rotate g out).1 = (k.val : Int) ∧
        distance (rotateNTimes k.val g) = 0 ∧
        ∀ j : Fin 4, j < k → distance (rotateNTimes j.val g) ≠ 0) ∧
    (∀ i : Fin 4, distance (rotateNTimes i.val g) = 0 →
      (∀ j : Fin 4, j < i → distance (rotateNTimes j.val g) ≠ 0) →
      (rotate g out).1 = (i.val : Int)) := by
  have hfirst : ∀ i : Fin 4, distance (rotateNTimes i.val g) = 0 →
      (∀ j : Fin 4, j < i → distance (rotateNTimes j.val g) ≠ 0) →
      (rotate g out).1 = (i.val : Int) := by
    intro i hi hj
    obtain ⟨k, hk, hk0, hkj⟩ := rotate_first_index g out ⟨i, hi⟩
    rw [hk]
    have hki : k = i := by
      rcases lt_trichotomy k i with c | c | c
      · exact absurd hk0 (hj k c)
      · exact c
      · exact absurd hi (hkj i c)
    rw [hki]
  refine ⟨fun h => by rw [rotate_fails g out h], ?_, hfirst⟩
  rintro ⟨i, hi⟩
  obtain ⟨k, hk, hk0, hkj⟩ := rotate_first_index g out ⟨i, hi⟩
  rw [hk]
  refine ⟨?_, ?_, ⟨k, rfl, hk0, hkj⟩⟩
  · fin_cases k
    · exact Or.inl rfl
    · exact Or.inr (Or.inl rfl)
    · exact Or.inr (Or.inr (Or.inl rfl))
    · exact Or.inr (Or.inr (Or.inr rfl))
  · constructor
    · intro hz
      have hk0' : k = 0 := by
        apply Fin.ext
        have : ((k.val : Nat) : Int) = 0 := hz
        show k.val = 0
        omega
      rw [hk0'] at hk0
      exact hk0
    · intro hd
      have hk0' : k = 0 := by
        by_contra hne
        have hpos : (0 : Fin 4) < k := by
          rcases lt_trichotomy (0 : Fin 4) k with c | c | c
          · exact c
          · exact absurd c.symm hne
          · exact absurd c (Fin.not_lt_zero k)
        exact hkj 0 hpos hd
      rw [hk0']
      rfl

/-- Claim C13: whenever `rotate(g, out)` returns `n ≥ 0`, `n` is in `{0,1,2,3}`, the grid
written to `out` is `g` with `apply_rotation` applied `n` times, where `apply_rotation` is
the turn `out[i][j] = in[4-j][i]`, and every row of `out` is exactly one of the 4
codewords. -/
theorem rotate_success_shape (g out : Grid) (n : Int) (hret : (rotate g out).1 = n)
    (hn : 0 ≤ n) :
    n ≤ 3 ∧ (rotate g out).2 = rotateNTimes n.toNat g ∧
    (∀ (h : Grid) (i j : Fin 5), apply_rotation h i j = h ⟨4 - j.val, by omega⟩ i) ∧
    (∀ y : Fin 5, ∃ p : Fin 4, ∀ x : Fin 5, (rotate g out).2 y x = codewordTable p x) := by
  have hrows : ∀ k : Grid, distance k = 0 →
      ∀ y : Fin 5, ∃ p : Fin 4, ∀ x : Fin 5, k y x = codewordTable p x := by
    intro k hk y
    obtain ⟨p, hp⟩ := (rowMin_eq_zero_iff_exists _).1 ((distance_eq_zero_iff k).1 hk y)
    exact ⟨p, fun x => (hp x).trans (codewordTable_eq p x).symm⟩
  have hturn : ∀ (h : Grid) (i j : Fin 5), apply_rotation h i j = h ⟨4 - j.val, by omega⟩ i := by
    intro h i j
    have e : (⟨5 - j.val - 1, by omega⟩ : Fin 5) = ⟨4 - j.val, by omega⟩ :=
      Fin.ext (show 5 - j.val - 1 = 4 - j.val by omega)
    show h ⟨5 - j.val - 1, by omega⟩ i = h ⟨4 - j.val, by omega⟩ i
    rw [e]
  rcases rotate_result_cases g out with h | h | h | h | h
  · rw [h.1] at hret ⊢
    have hn0 : n = 0 := hret.symm
    subst hn0
    exact ⟨by decide, rfl, hturn, hrows g h.2⟩
  · rw [h.1] at hret ⊢
    have hn0 : n = 1 := hret.symm
    subst hn0
    exact ⟨by decide, rfl, hturn, hrows _ h.2.2⟩
  · rw [h.1] at hret ⊢
    have hn0 : n = 2 := hret.symm
    subst hn0
    exact ⟨by decide, rfl, hturn, hrows _ h.2.2⟩
  · rw [h.1] at hret ⊢
    have hn0 : n = 3 := hret.symm
    subst hn0
    exact ⟨by decide, rfl, hturn, hrows _ h.2.2⟩
  · rw [h.1] at hret
    have : n = -1 := hret.symm
    omega

theorem rotate_success_shape_witness :
    ((rotate (rotateNTimes 1 (encode 110 zeroGrid).2) zeroGrid).1 = 3 ∧ (0 : Int) ≤ 3) ∧
    (rotate (rotateNTimes 1 (encode 110 zeroGrid).2) zeroGrid).2
      = rotateNTimes (3 : Int).toNat (rotateNTimes 1 (encode 110 zeroGrid).2) := by
  have hret : (rotate (rotateNTimes 1 (encode 110 zeroGrid).2) zeroGrid).1 = 3 := by
    obtain ⟨n, hn, hid, he⟩ := encode_of_valid 110 zeroGrid (by decide) (by decide)
    have hn110 : n = 110 := by omega
    subst hn110
    rw [he, rotate_rotated_encode 110 hn 1 (by decide) zeroGrid]
    rfl
  exact ⟨⟨hret, by decide⟩,
    (rotate_success_shape (rotateNTimes 1 (encode 110 zeroGrid).2) zeroGrid 3 hret
      (by decide)).2.1⟩

/-! ## Decoding a grid that has no valid orientation -/

theorem packBits_step_lt (m e : Nat) (b1 b3 : Nat) (h : m < 2 ^ e) :
    (if b3 ≠ 0 then ((if b1 ≠ 0 then (m <<< 1) ||| 1 else m <<< 1) <<< 1) ||| 1
      else (if b1 ≠ 0 then (m <<< 1) ||| 1 else m <<< 1) <<< 1) < 2 ^ (e + 2) := by
  have h1 : m <<< 1 < 2 ^ (e + 1) := by
    rw [Nat.shiftLeft_eq, Nat.pow_succ]
    omega
  have one1 : 1 < 2 ^ (e + 1) := Nat.one_lt_two_pow (by omega)
  have h2 : (if b1 ≠ 0 then (m <<< 1) ||| 1 else m <<< 1) < 2 ^ (e + 1) := by
    split_ifs
    · exact Nat.or_lt_two_pow h1 one1
    · exact h1
  generalize (if b1 ≠ 0 then (m <<< 1) ||| 1 else m <<< 1) = m2 at h2
  have h3 : m2 <<< 1 < 2 ^ (e + 2) := by
    rw [Nat.shiftLeft_eq, Nat.pow_succ 2 (e + 1)]
    omega
  have one2 : 1 < 2 ^ (e + 2) := Nat.one_lt_two_pow (by omega)
  split_ifs
  · exact Nat.or_lt_two_pow h3 one2
  · exact h3

theorem packBits_foldl_lt (bits : Grid) (l : List (Fin 5)) (m e : Nat) (h : m < 2 ^ e) :
    l.foldl (fun matID y =>
      let m1 := matID <<< 1
      let m2 := if bits y 1 ≠ 0 then m1 ||| 1 else m1
      let m3 := m2 <<< 1
      if bits y 3 ≠ 0 then m3 ||| 1 else m3) m < 2 ^ (e + 2 * l.length) := by
  induction l generalizing m e with
  | nil => exact h
  | cons y t ih =>
    rw [List.foldl_cons]
    have hs := packBits_step_lt m e (bits y 1) (bits y 3) h
    have := ih _ (e + 2) hs
    rw [List.length_cons]
    have he : e + 2 * (t.length + 1) = e + 2 + 2 * t.length := by omega
    rw [he]
    exact this

/-- The value packed by `decode` is always a 10-bit number. -/
theorem packBits_lt (bits : Grid) : packBits bits < 1024 :=
  packBits_foldl_lt bits rows5 0 0 (by decide)

/-- When no orientation has code distance 0, `decode` packs the bits of its input as
they are. -/
theorem decode_unresolved (g : Grid) (h : ∀ i : Fin 4, distance (rotateNTimes i.val g) ≠ 0) :
    decode g = (packBits g : Int) ∧ 0 ≤ decode g ∧ decode g ≤ 1023 := by
  unfold decode
  rw [rotate_fails g g h]
  have := packBits_lt g
  exact ⟨rfl, Int.ofNat_nonneg _, by
    show ((packBits g : Nat) : Int) ≤ 1023
    omega⟩

/-- Claim C14, as the code behaves: no orientation of the all-zero grid has code distance
0, and `decode` still returns an id of `[0,1023]` for it, namely 0. -/
theorem decode_unresolvable_returns_id :
    (∀ i : Fin 4, distance (rotateNTimes i.val zeroGrid) ≠ 0) ∧
    decode zeroGrid = 0 ∧ (0 : Int) ≤ decode zeroGrid ∧ decode zeroGrid ≤ 1023 := by
  have h : ∀ i : Fin 4, distance (rotateNTimes i.val zeroGrid) ≠ 0 := by
    intro i
    rw [rotateNTimes_zeroGrid, distance_zeroGrid]
    decide
  have hd := decode_unresolved zeroGrid h
  exact ⟨h, decode_zeroGrid, hd.2.1, hd.2.2⟩

/-! ## The all-zero row -/

theorem rowSum_zero_row : ∀ p : Fin 4, 1 ≤ rowSum (fun _ => 0) p.val := by
  decide

/-- Claim C15: for every id in `[0,1023]` no row of `encode(id)` is `0 0 0 0 0`, the row
`0 0 0 0 0` has Hamming distance at least 1 to each of the 4 codewords, and `rotate` fails
with -1 on the all-zero grid. -/
theorem zero_row_never_valid (id : Int) (out out2 : Grid) (y : Fin 5)
    (h0 : 0 ≤ id) (h1 : id ≤ 1023) :
    (¬ ∀ x : Fin 5, (encode id out).2 y x = 0) ∧
    (∀ p : Fin 4, 1 ≤ rowSum (fun _ => 0) p.val) ∧
    (∀ p : Fin 4, 1 ≤ hammingToWord (fun _ => 0) p) ∧
    rotate zeroGrid out2 = (-1, out2) := by
  obtain ⟨n, hn, hid, he⟩ := encode_of_valid id out h0 h1
  rw [he]
  refine ⟨?_, rowSum_zero_row, by decide, ?_⟩
  · intro h
    have hrel := (encodeCell_relations n y).1
    have e0 : encodeCell (n : Int) y 0 = 0 := h 0
    have e1 : encodeCell (n : Int) y 1 = 0 := h 1
    rw [e0, e1] at hrel
    exact absurd hrel (by decide)
  · exact rotate_fails zeroGrid out2 (fun i => by
      rw [rotateNTimes_zeroGrid, distance_zeroGrid]
      decide)

theorem zero_row_never_valid_witness :
    ((0 : Int) ≤ 110 ∧ (110 : Int) ≤ 1023) ∧
    (¬ ∀ x : Fin 5, (encode 110 zeroGrid).2 3 x = 0) ∧
    rotate zeroGrid zeroGrid = (-1, zeroGrid) :=
  ⟨⟨by decide, by decide⟩,
    (zero_row_never_valid 110 zeroGrid zeroGrid 3 (by decide) (by decide)).1,
    (zero_row_never_valid 110 zeroGrid zeroGrid 3 (by decide) (by decide)).2.2.2⟩

/-! ## The code distance against its specification -/

theorem rowSum_eq_hamming (row : Fin 5 → Nat) (p : Fin 4) :
    rowSum row p.val = hammingToWord row p := by
  unfold rowSum hammingToWord rows5
  rw [Finset.card_filter, Fin.sum_univ_five]
  simp only [List.foldl, codewordTable_eq, ite_not]
  omega

theorem rowSum_le_five (row : Fin 5 → Nat) (p : Fin 4) : rowSum row p.val ≤ 5 := by
  rw [rowSum_eq_hamming]
  unfold hammingToWord
  exact (Finset.card_filter_le _ _).trans (by simp)

theorem rowMin_le_and_attained (row : Fin 5 → Nat) :
    (∀ p : Fin 4, rowMin row ≤ rowSum row p.val) ∧ ∃ p : Fin 4, rowMin row = rowSum row p.val := by
  have b0 : rowSum row 0 ≤ 5 := rowSum_le_five row 0
  have key : (rowMin row ≤ rowSum row 0 ∧ rowMin row ≤ rowSum row 1 ∧
      rowMin row ≤ rowSum row 2 ∧ rowMin row ≤ rowSum row 3) ∧
      (rowMin row = rowSum row 0 ∨ rowMin row = rowSum row 1 ∨
        rowMin row = rowSum row 2 ∨ rowMin row = rowSum row 3) := by
    unfold rowMin
    simp only [List.foldl]
    generalize rowSum row 0 = s0 at b0 ⊢
    generalize rowSum row 1 = s1
    generalize rowSum row 2 = s2
    generalize rowSum row 3 = s3
    split_ifs <;> omega
  constructor
  · intro p
    fin_cases p
    · exact key.1.1
    · exact key.1.2.1
    · exact key.1.2.2.1
    · exact key.1.2.2.2
  · rcases key.2 with h | h | h | h
    · exact ⟨0, h⟩
    · exact ⟨1, h⟩
    · exact ⟨2, h⟩
    · exact ⟨3, h⟩

theorem rowMin_eq_inf (row : Fin 5 → Nat) :
    rowMin row
      = Finset.univ.inf' Finset.univ_nonempty (fun p : Fin 4 => hammingToWord row p) := by
  obtain ⟨hle, p, hp⟩ := rowMin_le_and_attained row
  apply le_antisymm
  · apply Finset.le_inf'
    intro q _
    rw [← rowSum_eq_hamming]
    exact hle q
  · rw [hp, rowSum_eq_hamming]
    exact Finset.inf'_le _ (Finset.mem_univ p)

theorem distance_eq_sum (g : Grid) : distance g = ∑ y : Fin 5, rowMin (g y) := by
  unfold distance rows5
  rw [Fin.sum_univ_five]
  simp only [List.foldl]
  omega

theorem distance_eq_spec (g : Grid) : distance g = codeDistanceSpec g := by
  rw [distance_eq_sum]
  unfold codeDistanceSpec
  exact Finset.sum_congr rfl (fun y _ => rowMin_eq_inf (g y))

theorem distance_eq_zero_iff_rows (g : Grid) :
    distance g = 0 ↔ ∀ y : Fin 5, ∃ p : Fin 4, ∀ x : Fin 5, g y x = codewordTable p x := by
  rw [distance_eq_zero_iff]
  constructor
  · intro h y
    obtain ⟨p, hp⟩ := (rowMin_eq_zero_iff_exists _).1 (h y)
    exact ⟨p, fun x => (hp x).trans (codewordTable_eq p x).symm⟩
  · intro h y
    obtain ⟨p, hp⟩ := h y
    exact (rowMin_eq_zero_iff_exists _).2 ⟨p, fun x => (hp x).trans (codewordTable_eq p x)⟩

theorem digits_of_sum : ∀ a b c d e : Fin 4,
    ((256 * a.val + 64 * b.val + 16 * c.val + 4 * d.val + e.val) >>> 8) &&& 3 = a.val ∧
    ((256 * a.val + 64 * b.val + 16 * c.val + 4 * d.val + e.val) >>> 6) &&& 3 = b.val ∧
    ((256 * a.val + 64 * b.val + 16 * c.val + 4 * d.val + e.val) >>> 4) &&& 3 = c.val ∧
    ((256 * a.val + 64 * b.val + 16 * c.val + 4 * d.val + e.val) >>> 2) &&& 3 = d.val ∧
    ((256 * a.val + 64 * b.val + 16 * c.val + 4 * d.val + e.val) >>> 0) &&& 3 = e.val ∧
    256 * a.val + 64 * b.val + 16 * c.val + 4 * d.val + e.val < 1024 := by
  decide!

/-- A grid whose rows are codewords is the encoding of some id below 1024. -/
theorem exists_id_of_codeword_rows (g : Grid)
    (h : ∀ y : Fin 5, ∃ p : Fin 4, ∀ x : Fin 5, g y x = codewordTable p x) :
    ∃ n : Nat, n < 1024 ∧ g = fun y x => encodeCell (n : Int) y x := by
  choose p hp using h
  have key := digits_of_sum (p 0) (p 1) (p 2) (p 3) (p 4)
  refine ⟨256 * (p 0).val + 64 * (p 1).val + 16 * (p 2).val + 4 * (p 3).val + (p 4).val,
    key.2.2.2.2.2, ?_⟩
  have hdig : ∀ y : Fin 5,
      ((256 * (p 0).val + 64 * (p 1).val + 16 * (p 2).val + 4 * (p 3).val + (p 4).val)
        >>> (2 * (4 - y.val))) &&& 3 = (p y).val := by
    intro y
    fin_cases y
    · exact key.1
    · exact key.2.1
    · exact key.2.2.1
    · exact key.2.2.2.1
    · exact key.2.2.2.2.1
  funext y x
  rw [hp y x, encodeCell_natCast, hdig y, codewordTable_eq]

/-- Claim C16: for every 5x5 grid, `distance` equals the sum over the 5 rows of the minimum,
over the 4 codewords, of the number of columns where the row and the codeword differ; it is
0 if and only if every row of the grid is exactly one of the 4 codewords, equivalently the
grid is `encode(id)` for some id in `[0,1023]`. -/
theorem distance_matches_spec (g out : Grid) :
    distance g = codeDistanceSpec g ∧
    (distance g = 0 ↔ ∀ y : Fin 5, ∃ p : Fin 4, ∀ x : Fin 5, g y x = codewordTable p x) ∧
    ((∀ y : Fin 5, ∃ p : Fin 4, ∀ x : Fin 5, g y x = codewordTable p x) ↔
      ∃ id : Int, 0 ≤ id ∧ id ≤ 1023 ∧ g = (encode id out).2) := by
  refine ⟨distance_eq_spec g, distance_eq_zero_iff_rows g, ?_, ?_⟩
  · intro h
    obtain ⟨n, hn, hg⟩ := exists_id_of_codeword_rows g h
    refine ⟨(n : Int), by omega, by omega, ?_⟩
    obtain ⟨m, _, hmid, hme⟩ := encode_of_valid (n : Int) out (by omega) (by omega)
    rw [hme, hg]
    have : m = n := by omega
    rw [this]
  · rintro ⟨id, h0, h1, hg⟩
    obtain ⟨n, _, _, he⟩ := encode_of_valid id out h0 h1
    rw [hg, he]
    exact (distance_eq_zero_iff_rows _).1 (distance_encode n)

/-- Claim C19: `encode` is a bijection from `[0,1023]` onto the grids of code distance 0:
`decode(encode(id)) = id` for every id of the range, and for every grid `g` with
`distance(g) = 0`, `decode(g)` is in `[0,1023]` and `encode(decode(g)) = g`. -/
theorem encode_decode_bijection (out : Grid) :
    (∀ id : Int, 0 ≤ id → id ≤ 1023 →
      distance (encode id out).2 = 0 ∧ decode (encode id out).2 = id) ∧
    (∀ g : Grid, distance g = 0 →
      0 ≤ decode g ∧ decode g ≤ 1023 ∧ encode (decode g) out = (0, g)) := by
  constructor
  · intro id h0 h1
    obtain ⟨n, hn, hid, he⟩ := encode_of_valid id out h0 h1
    rw [he, hid]
    exact ⟨distance_encode n, decode_rotated_encode n hn 0 (Nat.zero_le 3)⟩
  · intro g hg
    obtain ⟨n, hn, hgn⟩ := exists_id_of_codeword_rows g ((distance_eq_zero_iff_rows g).1 hg)
    have hdec : decode g = (n : Int) := by
      rw [hgn]
      exact decode_rotated_encode n hn 0 (Nat.zero_le 3)
    obtain ⟨m, _, hmid, hme⟩ := encode_of_valid (n : Int) out (by omega) (by omega)
    have hmn : m = n := by omega
    rw [hdec, hme, hmn, hgn]
    exact ⟨by omega, by omega, rfl⟩

/-! ## Range of the code distance -/

theorem distance_le_25 (g : Grid) : distance g ≤ 25 := by
  have h : ∀ y : Fin 5, rowMin (g y) ≤ 5 := fun y =>
    ((rowMin_le_and_attained (g y)).1 0).trans (rowSum_le_five (g y) 0)
  rw [distance_eq_sum, Fin.sum_univ_five]
  have h0 := h 0
  have h1 := h 1
  have h2 := h 2
  have h3 := h 3
  have h4 := h 4
  omega

theorem rowMin_bits_le_aux : ∀ r0 : Nat, r0 < 2 → ∀ r1 : Nat, r1 < 2 → ∀ r2 : Nat, r2 < 2 →
    ∀ r3 : Nat, r3 < 2 → ∀ r4 : Nat, r4 < 2 →
    rowMin (fun x : Fin 5 => [r0, r1, r2, r3, r4].getD x.val 0) ≤ 2 := by
  decide!

/-- Every row of 0/1 cells is within Hamming distance 2 of some codeword. -/
theorem rowMin_bits_le (row : Fin 5 → Nat) (h : ∀ x : Fin 5, row x ≤ 1) : rowMin row ≤ 2 := by
  have e : row = fun x : Fin 5 => [row 0, row 1, row 2, row 3, row 4].getD x.val 0 := by
    funext x
    fin_cases x <;> rfl
  rw [e]
  exact rowMin_bits_le_aux (row 0) (Nat.lt_succ_of_le (h 0)) (row 1) (Nat.lt_succ_of_le (h 1))
    (row 2) (Nat.lt_succ_of_le (h 2)) (row 3) (Nat.lt_succ_of_le (h 3))
    (row 4) (Nat.lt_succ_of_le (h 4))

theorem distance_bits_le_10 (g : Grid) (h : ∀ y x : Fin 5, g y x ≤ 1) : distance g ≤ 10 := by
  rw [distance_eq_sum, Fin.sum_univ_five]
  have h0 := rowMin_bits_le (g 0) (h 0)
  have h1 := rowMin_bits_le (g 1) (h 1)
  have h2 := rowMin_bits_le (g 2) (h 2)
  have h3 := rowMin_bits_le (g 3) (h 3)
  have h4 := rowMin_bits_le (g 4) (h 4)
  omega

theorem distance_far_bit_grid : distance (fun _ x => if 3 ≤ x.val then 1 else 0) = 10 := by
  decide!

theorem distance_all_two : distance (fun _ _ => 2) = 25 := by
  decide!

/-- Counterexample to claim C17 as stated: no grid of 0/1 cells has code distance 25. -/
theorem no_bit_grid_at_25 :
    ¬ ∃ g : Grid, (∀ y x : Fin 5, g y x ≤ 1) ∧ distance g = 25 := by
  rintro ⟨g, hb, hd⟩
  have := distance_bits_le_10 g hb
  omega

/-- Claim C17, amended: the code distance of a 5x5 grid is at most 25, and for a grid of
0/1 cells it ranges from 0 to 10; the value 0 is reached when every row is an exact
codeword, the value 10 is reached by some grid of 0/1 cells, and 25 is reached only with
cells outside `{0,1}`, for example by the grid whose cells are all 2. -/
theorem distance_range :
    (∀ g : Grid, distance g ≤ 25) ∧
    (∀ g : Grid, (∀ y x : Fin 5, g y x ≤ 1) → 0 ≤ distance g ∧ distance g ≤ 10) ∧
    (∀ g : Grid, (∀ y : Fin 5, ∃ p : Fin 4, ∀ x : Fin 5, g y x = codewordTable p x) →
      distance g = 0) ∧
    (∃ g : Grid, (∀ y x : Fin 5, g y x ≤ 1) ∧ distance g = 10) ∧
    distance (fun _ _ => 2) = 25 ∧
    (∀ g : Grid, distance g = 25 → ∃ y x : Fin 5, 1 < g y x) := by
  refine ⟨distance_le_25, fun g h => ⟨Nat.zero_le _, distance_bits_le_10 g h⟩,
    fun g h => (distance_eq_zero_iff_rows g).2 h,
    ⟨fun _ x => if 3 ≤ x.val then 1 else 0, ?_, distance_far_bit_grid⟩,
    distance_all_two, ?_⟩
  · intro y x
    show (if 3 ≤ x.val then 1 else 0) ≤ 1
    split_ifs <;> decide
  · intro g hd
    by_contra hno
    have hb : ∀ y x : Fin 5, g y x ≤ 1 := by
      intro y x
      by_contra hlt
      exact hno ⟨y, x, by omega⟩
    have := distance_bits_le_10 g hb
    omega

/-! ## Orientation of an encoded grid -/

/-- Claim C18: for every id in `[0,1023]`, `encode(id)` rotated by one or by three quarter
turns has code distance > 0; rotated by two quarter turns it has code distance 0 only when
`id = 1023`, in which case the half turn equals `encode(1023)` itself; hence no rotation of
an encoded grid is the encoding of a different id. -/
theorem orientation_unambiguous (id : Int) (out : Grid) (h0 : 0 ≤ id) (h1 : id ≤ 1023) :
    distance (rotateNTimes 1 (encode id out).2) > 0 ∧
    distance (rotateNTimes 3 (encode id out).2) > 0 ∧
    (distance (rotateNTimes 2 (encode id out).2) = 0 → id = 1023) ∧
    (id = 1023 → rotateNTimes 2 (encode id out).2 = (encode id out).2) ∧
    (∀ (id2 : Int) (r : Nat), 0 ≤ id2 → id2 ≤ 1023 → r ≤ 3 →
      rotateNTimes r (encode id out).2 = (encode id2 out).2 → id2 = id) := by
  obtain ⟨n, hn, hid, he⟩ := encode_of_valid id out h0 h1
  rw [he]
  refine ⟨Nat.pos_of_ne_zero (distance_rot1_encode n),
    Nat.pos_of_ne_zero (distance_rot3_encode n), ?_, ?_, ?_⟩
  · intro h
    have := (distance_rot2_encode n hn).1 h
    omega
  · intro h
    have hn1023 : n = 1023 := by omega
    subst hn1023
    exact rot2_encode_1023
  · intro id2 r g0 g1 hr heq
    obtain ⟨m, hm, hmid, hme⟩ := encode_of_valid id2 out g0 g1
    rw [hme] at heq
    have d1 := decode_rotated_encode n hn r hr
    have d2 := decode_rotated_encode m hm 0 (Nat.zero_le 3)
    have e0 : rotateNTimes 0 (fun y x => encodeCell (m : Int) y x)
        = fun y x => encodeCell (m : Int) y x := rfl
    have heq2 : rotateNTimes r (fun y x => encodeCell (n : Int) y x)
        = fun y x => encodeCell (m : Int) y x := heq
    rw [e0, ← heq2, d1] at d2
    omega

theorem orientation_unambiguous_witness :
    ((0 : Int) ≤ 1023 ∧ (1023 : Int) ≤ 1023) ∧
    distance (rotateNTimes 1 (encode 1023 zeroGrid).2) > 0 ∧
    rotateNTimes 2 (encode 1023 zeroGrid).2 = (encode 1023 zeroGrid).2 :=
  ⟨⟨by decide, by decide⟩,
    (orientation_unambiguous 1023 zeroGrid (by decide) (by decide)).1,
    (orientation_unambiguous 1023 zeroGrid (by decide) (by decide)).2.2.2.1 rfl⟩

/-! ## Bit errors stay visible in place -/

theorem distance_flipBit_ne_zero (n : Nat) (y c : Fin 5) :
    distance (flipBit (fun y x => encodeCell (n : Int) y x) y c) ≠ 0 := by
  intro hd
  rw [distance_eq_zero_iff] at hd
  obtain ⟨p, hp⟩ := (rowMin_eq_zero_iff_exists _).1 (hd y)
  have hlt : (n >>> (2 * (4 - y.val))) &&& 3 < 4 := Nat.lt_succ_of_le Nat.and_le_right
  apply one_flip_not_codeword ⟨(n >>> (2 * (4 - y.val))) &&& 3, hlt⟩ p c
  intro x
  have hx := hp x
  rw [flipBit_row, encodeCell_natCast] at hx
  exact hx

theorem rotate_ne_zero_of_distance (g out : Grid) (h : distance g ≠ 0) :
    (rotate g out).1 ≠ 0 := by
  rcases rotate_result_cases g out with c | c | c | c | c
  · exact absurd c.2 h
  · rw [c.1]
    exact (show (1 : Int) ≠ 0 by decide)
  · rw [c.1]
    exact (show (2 : Int) ≠ 0 by decide)
  · rw [c.1]
    exact (show (3 : Int) ≠ 0 by decide)
  · rw [c.1]
    exact (show (-1 : Int) ≠ 0 by decide)

theorem codewords_far_apart : ∀ p q : Fin 4, p ≠ q →
    3 ≤ hammingToWord (codewordTable p) q := by
  decide

/-- Claim C20: the 4 codewords are pairwise at Hamming distance at least 3, and for every id
in `[0,1023]`, inverting one bit, or two distinct bits of the same row, of `encode(id)`
yields a grid of code distance at least 1 in the unrotated orientation, so that `rotate`
never returns the rotation count 0 for it. -/
theorem flips_detected_in_place (id : Int) (out out2 : Grid) (y c1 c2 : Fin 5)
    (h0 : 0 ≤ id) (h1 : id ≤ 1023) (hne : c1 ≠ c2) :
    (∀ p q : Fin 4, p ≠ q → 3 ≤ hammingToWord (codewordTable p) q) ∧
    distance (flipBit (encode id out).2 y c1) ≥ 1 ∧
    distance (flipTwo (encode id out).2 y c1 c2) ≥ 1 ∧
    (rotate (flipBit (encode id out).2 y c1) out2).1 ≠ 0 ∧
    (rotate (flipTwo (encode id out).2 y c1 c2) out2).1 ≠ 0 := by
  obtain ⟨n, hn, hid, he⟩ := encode_of_valid id out h0 h1
  rw [he]
  exact ⟨codewords_far_apart,
    Nat.pos_of_ne_zero (distance_flipBit_ne_zero n y c1),
    Nat.pos_of_ne_zero (distance_flipTwo_ne_zero n y c1 c2 hne),
    rotate_ne_zero_of_distance _ out2 (distance_flipBit_ne_zero n y c1),
    rotate_ne_zero_of_distance _ out2 (distance_flipTwo_ne_zero n y c1 c2 hne)⟩

theorem flips_detected_in_place_witness :
    ((0 : Int) ≤ 255 ∧ (255 : Int) ≤ 1023 ∧ (0 : Fin 5) ≠ 4) ∧
    distance (flipTwo (encode 255 zeroGrid).2 0 0 4) ≥ 1 ∧
    (rotate (flipTwo (encode 255 zeroGrid).2 0 0 4) zeroGrid).1 ≠ 0 :=
  ⟨⟨by decide, by decide, by decide⟩,
    (flips_detected_in_place 255 zeroGrid zeroGrid 0 0 4 (by decide) (by decide)
      (by decide)).2.2.1,
    (flips_detected_in_place 255 zeroGrid zeroGrid 0 0 4 (by decide) (by decide)
      (by decide)).2.2.2.2⟩

/-! ## The grid rotator -/

theorem apply_rotation_apply (g : Grid) (i j : Fin 5) :
    apply_rotation g i j = g ⟨4 - j.val, by omega⟩ i := by
  have e : (⟨5 - j.val - 1, by omega⟩ : Fin 5) = ⟨4 - j.val, by omega⟩ :=
    Fin.ext (show 5 - j.val - 1 = 4 - j.val by omega)
  show g ⟨5 - j.val - 1, by omega⟩ i = g ⟨4 - j.val, by omega⟩ i
  rw [e]

theorem rotateStep_rotation (s : RotateState) (i : Nat) :
    (rotateStep s i).rotation = apply_rotation s.rotation := by
  unfold rotateStep
  dsimp only
  split_ifs <;> rfl

theorem rotateNTimes_add_four (k : Nat) (g : Grid) :
    rotateNTimes (k + 4) g = rotateNTimes k g := by
  induction k with
  | zero => exact rotateNTimes_four g
  | succ n ih =>
    show apply_rotation (rotateNTimes (n + 4) g) = apply_rotation (rotateNTimes n g)
    rw [ih]

/-- Claim C21: `apply_rotation` is a quarter turn: for every 5x5 grid `g` its result
satisfies `out[i][j] = g[4-j][i]` for all `i, j` in `0..4`, and applying it four times in a
row returns `g` unchanged, so that the grids the loop of `rotate` visits, `g` and its 1, 2
and 3 successive turns, are all the orientations of `g`. -/
theorem apply_rotation_quarter_turn (g : Grid) :
    (∀ i j : Fin 5, apply_rotation g i j = g ⟨4 - j.val, by omega⟩ i) ∧
    apply_rotation (apply_rotation (apply_rotation (apply_rotation g))) = g ∧
    (∀ k : Nat, rotateNTimes (k + 4) g = rotateNTimes k g) ∧
    (rotateStep (⟨g, g, distance g, 0⟩ : RotateState) 1).rotation = rotateNTimes 1 g ∧
    (rotateStep (rotateStep (⟨g, g, distance g, 0⟩ : RotateState) 1) 2).rotation
      = rotateNTimes 2 g ∧
    (rotateLoop g).rotation = rotateNTimes 3 g := by
  have s1 : (rotateStep (⟨g, g, distance g, 0⟩ : RotateState) 1).rotation
      = rotateNTimes 1 g := rotateStep_rotation _ 1
  have s2 : (rotateStep (rotateStep (⟨g, g, distance g, 0⟩ : RotateState) 1) 2).rotation
      = rotateNTimes 2 g := by
    rw [rotateStep_rotation, s1]
    rfl
  refine ⟨apply_rotation_apply g, apply_rotation_four g,
    fun k => rotateNTimes_add_four k g, s1, s2, ?_⟩
  unfold rotateLoop
  rw [List.foldl_cons, List.foldl_cons, List.foldl_cons, List.foldl_nil,
    rotateStep_rotation, s2]
  rfl
